import Mathlib

/-!
Verification development for the diagnostics engine of the deno language
server (`cli/lsp/diagnostics.rs`).  The Rust source is shallowly embedded:
hash maps become association lists, cooperative cancellation tokens become
boolean-valued functions of an abstract poll clock, and the async worker
tasks become pure functions from their inputs (including the generator
results and the token) to their final state together with the trace of
messages sent to the editor.
-/

set_option maxHeartbeats 1000000

namespace Deno

/-- Document specifiers are absolute URL strings; the publisher and the
stores only ever compare them for equality. -/
abbrev Specifier := String

/-- lsp::Position (UTF-16 line/character). -/
structure Position where
  line : Nat
  character : Nat
deriving DecidableEq, Repr

/-- lsp::Range. -/
structure Range where
  start : Position
  «end» : Position
deriving DecidableEq, Repr

/-- lsp::DiagnosticSeverity. -/
inductive Severity where
  | error
  | warning
  | information
  | hint
deriving DecidableEq, Repr

/-- lsp::NumberOrString, the type of diagnostic codes. -/
inductive NumberOrString where
  | num (n : Int)
  | str (s : String)
deriving DecidableEq, Repr

/-- lsp::DiagnosticTag. -/
inductive DiagTag where
  | unnecessary
  | deprecated
deriving DecidableEq, Repr

/-- lsp::DiagnosticRelatedInformation; the location URI is kept as the
string it was parsed from. -/
structure RelatedInformation where
  uri : String
  range : Range
  message : String
deriving DecidableEq, Repr

/-- Model of `url::Url` restricted to hierarchical URLs with an authority
(`file:///...`, `https://host/...`), which is the shape every specifier
handled by `specifier_text_for_redirected` has.  The serialized path always
starts with `/`. No port is modelled: `file:` URLs cannot carry one. -/
structure Url where
  scheme : String
  host : String
  path : String
  query : Option String := none
  fragment : Option String := none
deriving DecidableEq, Repr

/-- Serialization of a hierarchical URL (`Url::to_string`). -/
def Url.toStr (u : Url) : String :=
  u.scheme ++ "://" ++ u.host ++ u.path
    ++ (match u.query with | some q => "?" ++ q | none => "")
    ++ (match u.fragment with | some f => "#" ++ f | none => "")

/-- Split a character list at every occurrence of `c` (like Rust's
`str::split`, which yields at least one piece). -/
def splitCharsOn (c : Char) : List Char → List (List Char)
  | [] => [[]]
  | x :: xs =>
    let r := splitCharsOn c xs
    if x = c then [] :: r
    else
      match r with
      | y :: ys => (x :: y) :: ys
      | [] => [[x]]

/-- Split a string on `/`, like `str::split('/')`. -/
def splitSlash (s : String) : List String :=
  (splitCharsOn '/' s.toList).map (fun l => String.mk l)

/-- The `extract_path_filename` helper inside `Url::make_relative`
(url crate): split a serialized path at its last `/`.  It returns the
leading part already split into segments (which is how `make_relative`
consumes it) and the trailing filename.  For paths that contain a `/`
(every path of a hierarchical URL does) this agrees with the Rust code. -/
def extractPathFilename (p : String) : List String × String :=
  let parts := splitSlash p
  (parts.dropLast, parts.getLastD "")

/-- Skip the common prefix of the two segment lists (the peekable loop in
`Url::make_relative`). -/
def skipCommonSegs : List String → List String → List String × List String
  | a :: as_, b :: bs =>
    if a = b then skipCommonSegs as_ bs else (a :: as_, b :: bs)
  | as_, bs => (as_, bs)

/-- Add a `..` segment for every remaining base segment, stopping at the
first empty segment (the `break` in `Url::make_relative`). -/
def addDotDots (relative : String) : List String → String
  | [] => relative
  | s :: rest =>
    if s = "" then relative
    else addDotDots (if relative = "" then ".." else relative ++ "/..") rest

/-- Append the remaining segments of the target path. -/
def appendUrlSegments (relative : String) : List String → String
  | [] => relative
  | s :: rest =>
    appendUrlSegments (if relative = "" then s else relative ++ "/" ++ s) rest

/-- `Url::make_relative` from the url crate: `base.makeRelative url`
computes a path for `url` relative to `base`, or fails when scheme or host
differ. -/
def Url.makeRelative (base url : Url) : Option String :=
  if base.scheme ≠ url.scheme ∨ base.host ≠ url.host then none
  else
    let bp := extractPathFilename base.path
    let up := extractPathFilename url.path
    let rem := skipCommonSegs bp.1 up.1
    let relative := addDotDots "" rem.1
    let relative := appendUrlSegments relative rem.2
    let relative :=
      if relative ≠ "" ∨ bp.2 ≠ up.2 then
        if up.2 = "" then relative ++ "/"
        else if relative = "" then up.2 else relative ++ "/" ++ up.2
      else relative
    let relative := match url.query with
      | some q => relative ++ "?" ++ q
      | none => relative
    let relative := match url.fragment with
      | some f => relative ++ "#" ++ f
      | none => relative
    some relative

/-- Whether a string starts with the character `.`
(`str::starts_with('.')`). -/
def startsWithDot (s : String) : Bool :=
  match s.toList with
  | '.' :: _ => true
  | _ => false

/-- `relative_specifier` from `cli/lsp/diagnostics.rs`. -/
def relative_specifier (specifier referrer : Url) : String :=
  match referrer.makeRelative specifier with
  | some relative =>
    if startsWithDot relative then relative else "./" ++ relative
  | none => specifier.toStr

/-- `specifier_text_for_redirected` from `cli/lsp/diagnostics.rs`. -/
def specifier_text_for_redirected (redirect referrer : Url) : String :=
  if redirect.scheme = "file" ∧ referrer.scheme = "file" then
    relative_specifier redirect referrer
  else
    redirect.toStr

/-- Typed model of the JSON `data` payload attached to a diagnostic.  The
Rust code stores `serde_json::Value` and re-parses it in
`get_code_action`; here each deserializable shape is a constructor and
`other` stands for any JSON value that matches none of them. -/
inductive DiagnosticData where
  /-- shape of `DiagnosticDataImportMapRemap { from, to }` -/
  | importMapRemap (from_ to_ : String)
  /-- shape of `DiagnosticDataSpecifier { specifier : ModuleSpecifier }` -/
  | specifierData (specifier : Url)
  /-- shape of `DiagnosticDataStrSpecifier { specifier : String }` -/
  | strSpecifier (specifier : String)
  /-- shape of `DiagnosticDataRedirect { redirect : ModuleSpecifier }` -/
  | redirectData (redirect : Url)
  /-- shape of `DiagnosticDataNoLocal { to, message }` -/
  | noLocalData (to_ : Url) (message : String)
  /-- any other JSON value -/
  | other
deriving DecidableEq, Repr

/-- lsp::Diagnostic restricted to the fields the engine reads or writes. -/
structure Diagnostic where
  range : Range
  severity : Option Severity := none
  code : Option NumberOrString := none
  source : Option String := none
  message : String := ""
  relatedInformation : Option (List RelatedInformation) := none
  tags : Option (List DiagTag) := none
  data : Option DiagnosticData := none
deriving DecidableEq, Repr

/-- lsp::TextEdit. -/
structure TextEdit where
  newText : String
  range : Range
deriving DecidableEq, Repr

/-- lsp::WorkspaceEdit (only the `changes` map is ever produced, always
with a single entry). -/
structure WorkspaceEdit where
  changes : Option (List (Url × List TextEdit)) := none
deriving DecidableEq, Repr

/-- An argument of the `deno.cache` command:
`json!([data.specifier])` or `json!(&specifier)`. -/
inductive CommandArg where
  | listOf (us : List Url)
  | single (u : Url)
deriving DecidableEq, Repr

/-- lsp::Command. -/
structure Command where
  title : String
  command : String
  arguments : Option (List CommandArg) := none
deriving DecidableEq, Repr

/-- lsp::CodeAction restricted to the fields `get_code_action` fills in. -/
structure CodeAction where
  title : String
  kind : Option String := none
  diagnostics : Option (List Diagnostic) := none
  edit : Option WorkspaceEdit := none
  command : Option Command := none
deriving DecidableEq, Repr

/-- `serde_json::from_value::<DiagnosticDataImportMapRemap>`. -/
def parseDataImportMapRemap : DiagnosticData → Option (String × String)
  | .importMapRemap f t => some (f, t)
  | _ => none

/-- `serde_json::from_value::<DiagnosticDataSpecifier>`. -/
def parseDataSpecifier : DiagnosticData → Option Url
  | .specifierData s => some s
  | _ => none

/-- `serde_json::from_value::<DiagnosticDataStrSpecifier>`. -/
def parseDataStrSpecifier : DiagnosticData → Option String
  | .strSpecifier s => some s
  | _ => none

/-- `serde_json::from_value::<DiagnosticDataRedirect>`. -/
def parseDataRedirect : DiagnosticData → Option Url
  | .redirectData r => some r
  | _ => none

/-- `serde_json::from_value::<DiagnosticDataNoLocal>`. -/
def parseDataNoLocal : DiagnosticData → Option (Url × String)
  | .noLocalData t m => some (t, m)
  | _ => none

/-- `DenoDiagnostic::get_code_action` from `cli/lsp/diagnostics.rs`. -/
def DenoDiagnostic.get_code_action (specifier : Url) (diagnostic : Diagnostic) :
    Except String CodeAction :=
  match diagnostic.code with
  | some (.str code) =>
    match code with
    | "import-map-remap" =>
      match diagnostic.data with
      | none => .error "Diagnostic is missing data"
      | some data =>
        match parseDataImportMapRemap data with
        | none => .error "deserialize error"
        | some (from_, to_) =>
          .ok { title := "Update \"" ++ from_ ++ "\" to \"" ++ to_
                  ++ "\" to use import map."
                kind := some "quickfix"
                diagnostics := some [diagnostic]
                edit := some ⟨some [(specifier,
                  [⟨"\"" ++ to_ ++ "\"", diagnostic.range⟩])]⟩ }
    | "no-attribute-type" =>
      .ok { title := "Insert import attribute."
            kind := some "quickfix"
            diagnostics := some [diagnostic]
            edit := some ⟨some [(specifier,
              [⟨" with \x7b type: \"json\" \x7d",
                ⟨diagnostic.range.end, diagnostic.range.end⟩⟩])]⟩ }
    | "no-cache" =>
      match diagnostic.data with
      | none => .error "Diagnostic is missing data"
      | some data =>
        match parseDataSpecifier data with
        | none => .error "deserialize error"
        | some dataSpecifier =>
          .ok { title := "Cache \"" ++ dataSpecifier.toStr
                  ++ "\" and its dependencies."
                kind := some "quickfix"
                diagnostics := some [diagnostic]
                command := some ⟨"", "deno.cache",
                  some [.listOf [dataSpecifier], .single specifier]⟩ }
    | "no-cache-npm" =>
      match diagnostic.data with
      | none => .error "Diagnostic is missing data"
      | some data =>
        match parseDataSpecifier data with
        | none => .error "deserialize error"
        | some dataSpecifier =>
          .ok { title := "Cache \"" ++ dataSpecifier.toStr
                  ++ "\" and its dependencies."
                kind := some "quickfix"
                diagnostics := some [diagnostic]
                command := some ⟨"", "deno.cache",
                  some [.listOf [dataSpecifier], .single specifier]⟩ }
    | "no-local" =>
      match diagnostic.data with
      | none => .error "Diagnostic is missing data"
      | some data =>
        match parseDataNoLocal data with
        | none => .error "deserialize error"
        | some (to_, message) =>
          .ok { title := message
                kind := some "quickfix"
                diagnostics := some [diagnostic]
                edit := some ⟨some [(specifier,
                  [⟨"\"" ++ relative_specifier to_ specifier ++ "\"",
                    diagnostic.range⟩])]⟩ }
    | "redirect" =>
      match diagnostic.data with
      | none => .error "Diagnostic is missing data"
      | some data =>
        match parseDataRedirect data with
        | none => .error "deserialize error"
        | some redirect =>
          .ok { title := "Update specifier to its redirected specifier."
                kind := some "quickfix"
                diagnostics := some [diagnostic]
                edit := some ⟨some [(specifier,
                  [⟨"\"" ++ specifier_text_for_redirected redirect specifier
                      ++ "\"", diagnostic.range⟩])]⟩ }
    | "import-node-prefix-missing" =>
      match diagnostic.data with
      | none => .error "Diagnostic is missing data"
      | some data =>
        match parseDataStrSpecifier data with
        | none => .error "deserialize error"
        | some dataSpecifier =>
          .ok { title := "Update specifier to node:" ++ dataSpecifier
                kind := some "quickfix"
                diagnostics := some [diagnostic]
                edit := some ⟨some [(specifier,
                  [⟨"\"node:" ++ dataSpecifier ++ "\"",
                    diagnostic.range⟩])]⟩ }
    | _ =>
      .error ("Unsupported diagnostic code (\"" ++ code ++ "\") provided.")
  | _ => .error "Unsupported diagnostic code provided."

/-- `DenoDiagnostic::is_fixable` from `cli/lsp/diagnostics.rs`. -/
def DenoDiagnostic.is_fixable (diagnostic : Diagnostic) : Bool :=
  match diagnostic.code with
  | some (.str code) =>
    match code with
    | "import-map-remap" | "no-cache" | "no-cache-npm" | "no-attribute-type"
    | "redirect" | "import-node-prefix-missing" => true
    | "no-local" => diagnostic.data.isSome
    | _ => false
  | _ => false

/-! ## Association-list model of the hash maps -/

/-- First-occurrence lookup in an association list (`HashMap::get`). -/
def alookup {α β : Type} [DecidableEq α] : List (α × β) → α → Option β
  | [], _ => none
  | (k, v) :: rest, a => if a = k then some v else alookup rest a

/-- Insert-or-update (`HashMap::insert`, or `entry(..)` followed by an
assignment): replaces the first binding of the key, or appends one. -/
def aset {α β : Type} [DecidableEq α] : List (α × β) → α → β → List (α × β)
  | [], a, b => [(a, b)]
  | (k, v) :: rest, a, b =>
    if a = k then (k, b) :: rest else (k, v) :: aset rest a b

/-- Remove the first binding of a key (`HashMap::remove` on a map whose
keys are distinct). -/
def aerase {α β : Type} [DecidableEq α] : List (α × β) → α → List (α × β)
  | [], _ => []
  | (k, v) :: rest, a => if a = k then rest else (k, v) :: aerase rest a

/-- The keys of an association list are pairwise distinct — the invariant
every `HashMap` provides. -/
def keysNodup {α β : Type} (l : List (α × β)) : Prop :=
  (l.map Prod.fst).Nodup

instance {α β : Type} [DecidableEq α] (l : List (α × β)) :
    Decidable (keysNodup l) :=
  inferInstanceAs (Decidable (l.map Prod.fst).Nodup)

/-! ## Diagnostic records, sources and stores -/

/-- `VersionedDiagnostics` from `cli/lsp/diagnostics.rs`. -/
structure VersionedDiagnostics where
  version : Option Int
  diagnostics : List Diagnostic
deriving DecidableEq, Repr

/-- `DiagnosticRecord` from `cli/lsp/diagnostics.rs`. -/
structure DiagnosticRecord where
  specifier : Specifier
  versioned : VersionedDiagnostics
deriving DecidableEq, Repr

/-- `DiagnosticVec`. -/
abbrev DiagnosticVec := List DiagnosticRecord

/-- `DiagnosticSource`. -/
inductive DiagnosticSource where
  | deno
  | lint
  | ts
deriving DecidableEq, Repr

/-- `DiagnosticSource::as_lsp_source`. -/
def DiagnosticSource.as_lsp_source : DiagnosticSource → String
  | .deno => "deno"
  | .lint => "deno-lint"
  | .ts => "deno-ts"

/-- `DiagnosticsBySource`: the per-specifier slot map of the publisher. -/
abbrev DiagnosticsBySource := List (DiagnosticSource × VersionedDiagnostics)

/-- The publisher's merged store `diagnostics_by_specifier`. -/
abbrev MergedStore := List (Specifier × DiagnosticsBySource)

/-- `SpecifierState` held by `DiagnosticsState`. -/
structure SpecifierState where
  version : Option Int
  no_cache_diagnostics : List Diagnostic
deriving DecidableEq, Repr

/-- The map inside `DiagnosticsState`. -/
abbrev StateMap := List (Specifier × SpecifierState)

/-- Whether a diagnostic's code is the string `no-cache` or
`no-cache-npm` (the filter inside `DiagnosticsState::update`). -/
def isNoCacheCode (d : Diagnostic) : Bool :=
  decide (d.code = some (.str "no-cache"))
    || decide (d.code = some (.str "no-cache-npm"))

/-- `DiagnosticsState::update` from `cli/lsp/diagnostics.rs`. -/
def DiagnosticsState.update (specifiers : StateMap) (specifier : Specifier)
    (version : Option Int) (diagnostics : List Diagnostic) : StateMap :=
  let current_version := (alookup specifiers specifier).bind (fun s => s.version)
  let skip : Bool :=
    match version, current_version with
    | some arg, some existing => decide (arg < existing)
    | _, _ => false
  if skip then specifiers
  else
    aset specifiers specifier
      ⟨version, diagnostics.filter isNoCacheCode⟩

/-- The map inside `TsDiagnosticsStore`. -/
abbrev TsStoreMap := List (Specifier × VersionedDiagnostics)

/-- `TsDiagnosticsStore::get` from `cli/lsp/diagnostics.rs`. -/
def TsDiagnosticsStore.get (store : TsStoreMap) (specifier : Specifier)
    (document_version : Option Int) : List Diagnostic :=
  match alookup store specifier with
  | some versioned =>
    if document_version = versioned.version then versioned.diagnostics
    else []
  | none => []

/-- `TsDiagnosticsStore::update`: atomically replace the whole map with
the latest batch. -/
def TsDiagnosticsStore.update (diagnostics : DiagnosticVec) : TsStoreMap :=
  diagnostics.map (fun record => (record.specifier, record.versioned))

/-! ## The publisher

A cancellation token is modelled as a boolean-valued function of a poll
clock: `tok t` is the value `token.is_cancelled()` returns at the `t`-th
poll.  Each branch point that polls the token consumes one tick. -/

/-- A message sent to the editor transport. -/
inductive PublishEvent where
  | publishDiagnostics (uri : Specifier) (diagnostics : List Diagnostic)
      (version : Option Int)
deriving DecidableEq, Repr

/-- The uri a `PublishEvent` was addressed to. -/
def PublishEvent.uri : PublishEvent → Specifier
  | .publishDiagnostics u _ _ => u

/-- `url_map.normalize_specifier(..).unwrap_or(raw)`: the LSP url map is
an external collaborator, modelled as a partial function with fallback to
the raw specifier. -/
def normalizeSpecifier (urlMap : Specifier → Option Specifier)
    (s : Specifier) : Specifier :=
  (urlMap s).getD s

/-- The token that is never cancelled. -/
def noCancel : Nat → Bool := fun _ => false

/-- The record loop of `DiagnosticsPublisher::publish` (the `for record in
diagnostics` loop).  Returns the new store, the new `DiagnosticsState`
map, the publish events in order, the number of messages sent, the clock
after the loop, and whether the loop returned early because the token was
cancelled. -/
def publishRecordLoop (source : DiagnosticSource)
    (urlMap : Specifier → Option Specifier) (tok : Nat → Bool) :
    DiagnosticVec → MergedStore → StateMap → Nat →
    MergedStore × StateMap × List PublishEvent × Nat × Nat × Bool
  | [], store, state, t => (store, state, [], 0, t, false)
  | record :: rest, store, state, t =>
    if tok t then (store, state, [], 0, t + 1, true)
    else
      let diagnostics_by_source := (alookup store record.specifier).getD []
      let version := record.versioned.version
      let diagnostics_by_source := aset diagnostics_by_source source record.versioned
      let store := aset store record.specifier diagnostics_by_source
      let all_specifier_diagnostics :=
        diagnostics_by_source.flatMap (fun p => p.2.diagnostics)
      let state := DiagnosticsState.update state record.specifier version
        all_specifier_diagnostics
      let ev := PublishEvent.publishDiagnostics
        (normalizeSpecifier urlMap record.specifier)
        all_specifier_diagnostics version
      let out := publishRecordLoop source urlMap tok rest store state (t + 1)
      (out.1, out.2.1, ev :: out.2.2.1, out.2.2.2.1 + 1, out.2.2.2.2.1,
        out.2.2.2.2.2)

/-- The cleanup loop of `DiagnosticsPublisher::publish` (the `for
(specifier, diagnostics_by_source) in diagnostics_by_specifier` loop).
Returns the modified entries, the keys pushed to `specifiers_to_remove`,
the new state map, the clearing events, the number of messages sent, and
the clock. A cancelled poll `break`s, leaving the remaining entries
untouched. -/
def publishCleanupLoop (source : DiagnosticSource)
    (urlMap : Specifier → Option Specifier) (tok : Nat → Bool)
    (seen_specifiers : List Specifier) :
    MergedStore → StateMap → Nat →
    MergedStore × List Specifier × StateMap × List PublishEvent × Nat × Nat
  | [], state, t => ([], [], state, [], 0, t)
  | (specifier, diagnostics_by_source) :: rest, state, t =>
    if specifier ∈ seen_specifiers then
      let out := publishCleanupLoop source urlMap tok seen_specifiers rest state t
      ((specifier, diagnostics_by_source) :: out.1, out.2.1, out.2.2.1,
        out.2.2.2.1, out.2.2.2.2.1, out.2.2.2.2.2)
    else if tok t then
      ((specifier, diagnostics_by_source) :: rest, [], state, [], 0, t + 1)
    else
      let maybe_removed_value := alookup diagnostics_by_source source
      let diagnostics_by_source := aerase diagnostics_by_source source
      if diagnostics_by_source.isEmpty then
        match maybe_removed_value with
        | some removed_value =>
          let state := DiagnosticsState.update state specifier
            removed_value.version []
          let ev := PublishEvent.publishDiagnostics
            (normalizeSpecifier urlMap specifier) [] removed_value.version
          let out := publishCleanupLoop source urlMap tok seen_specifiers rest
            state (t + 1)
          ((specifier, diagnostics_by_source) :: out.1, specifier :: out.2.1,
            out.2.2.1, ev :: out.2.2.2.1, out.2.2.2.2.1 + 1, out.2.2.2.2.2)
        | none =>
          let out := publishCleanupLoop source urlMap tok seen_specifiers rest
            state (t + 1)
          ((specifier, diagnostics_by_source) :: out.1, specifier :: out.2.1,
            out.2.2.1, out.2.2.2.1, out.2.2.2.2.1, out.2.2.2.2.2)
      else
        let out := publishCleanupLoop source urlMap tok seen_specifiers rest
          state (t + 1)
        ((specifier, diagnostics_by_source) :: out.1, out.2.1, out.2.2.1,
          out.2.2.2.1, out.2.2.2.2.1, out.2.2.2.2.2)

/-- Result of one `DiagnosticsPublisher::publish` call. -/
structure PublishOut where
  store : MergedStore
  state : StateMap
  events : List PublishEvent
  messages_sent : Nat
  clock : Nat
deriving Repr

/-- `DiagnosticsPublisher::publish` from `cli/lsp/diagnostics.rs`: run the
record loop; on early cancellation return at once (no cleanup), otherwise
run the cleanup loop and then drop the collected `specifiers_to_remove`
keys from the store. -/
def DiagnosticsPublisher.publish (source : DiagnosticSource)
    (urlMap : Specifier → Option Specifier) (tok : Nat → Bool)
    (diagnostics : DiagnosticVec) (store : MergedStore) (state : StateMap)
    (t : Nat) : PublishOut :=
  let r := publishRecordLoop source urlMap tok diagnostics store state t
  if r.2.2.2.2.2 then
    ⟨r.1, r.2.1, r.2.2.1, r.2.2.2.1, r.2.2.2.2.1⟩
  else
    let seen_specifiers := diagnostics.map (fun record => record.specifier)
    let c := publishCleanupLoop source urlMap tok seen_specifiers r.1 r.2.1
      r.2.2.2.2.1
    let finalStore := c.1.filter (fun e => decide (e.1 ∉ c.2.1))
    ⟨finalStore, c.2.2.1, r.2.2.1 ++ c.2.2.2.1, r.2.2.2.1 + c.2.2.2.2.1,
      c.2.2.2.2.2⟩

/-! ## The scheduler's three worker tasks

Each task is the body of one `spawn`ed future in `DiagnosticsServer::start`
after awaiting the previous handle, as a function of the cancellation
token, the batch index carried by the update message, and the generator's
result (the generators themselves are pure data producers here).  The type
task polls its token at the debounce `select` (clock `t`), then at the
`if !token.is_cancelled()` guard (clock `t+1`); the deps and lint tasks
only poll at their guard (clock `t`). -/

/-- `DiagnosticBatchNotificationParams` from `lsp_custom`. -/
structure DiagnosticBatchNotificationParams where
  batch_index : Nat
  messages_len : Nat
deriving DecidableEq, Repr

/-- Result of one worker task: final publisher store, final state map,
final ts store (unchanged for deps/lint), trace of editor messages, and
the batch notification sent, if any. -/
structure TaskOut where
  store : MergedStore
  state : StateMap
  tsStore : TsStoreMap
  events : List PublishEvent
  sent : Option DiagnosticBatchNotificationParams
deriving Repr

/-- The type-check worker task from `DiagnosticsServer::start`.  A
cancellation observed at the 200 ms debounce `select` makes the whole
future `return` — before the batch notification is reached.  Otherwise,
when the guard sees a live token, the ts store is replaced and the batch
is published; `messages_len` stays `0` when the guard sees a cancelled
token.  The batch notification is sent whenever `batch_index` is present
and the debounce was passed. -/
def typeTask (urlMap : Specifier → Option Specifier) (tok : Nat → Bool)
    (batch_index : Option Nat) (diagnostics : DiagnosticVec)
    (store : MergedStore) (state : StateMap) (tsStore : TsStoreMap)
    (t : Nat) : TaskOut :=
  if tok t then
    ⟨store, state, tsStore, [], none⟩
  else if tok (t + 1) then
    ⟨store, state, tsStore, [],
      batch_index.map (fun batch_index => ⟨batch_index, 0⟩)⟩
  else
    let tsStore := TsDiagnosticsStore.update diagnostics
    let out := DiagnosticsPublisher.publish .ts urlMap tok diagnostics store
      state (t + 2)
    ⟨out.store, out.state, tsStore, out.events,
      batch_index.map (fun batch_index => ⟨batch_index, out.messages_sent⟩)⟩

/-- The deps (deno source) worker task from `DiagnosticsServer::start`:
publish unless the guard sees a cancelled token, then always send the
batch notification when `batch_index` is present. -/
def depsTask (urlMap : Specifier → Option Specifier) (tok : Nat → Bool)
    (batch_index : Option Nat) (diagnostics : DiagnosticVec)
    (store : MergedStore) (state : StateMap) (tsStore : TsStoreMap)
    (t : Nat) : TaskOut :=
  if tok t then
    ⟨store, state, tsStore, [],
      batch_index.map (fun batch_index => ⟨batch_index, 0⟩)⟩
  else
    let out := DiagnosticsPublisher.publish .deno urlMap tok diagnostics store
      state (t + 1)
    ⟨out.store, out.state, tsStore, out.events,
      batch_index.map (fun batch_index => ⟨batch_index, out.messages_sent⟩)⟩

/-- The lint worker task from `DiagnosticsServer::start`; same shape as
the deps task with the lint source. -/
def lintTask (urlMap : Specifier → Option Specifier) (tok : Nat → Bool)
    (batch_index : Option Nat) (diagnostics : DiagnosticVec)
    (store : MergedStore) (state : StateMap) (tsStore : TsStoreMap)
    (t : Nat) : TaskOut :=
  if tok t then
    ⟨store, state, tsStore, [],
      batch_index.map (fun batch_index => ⟨batch_index, 0⟩)⟩
  else
    let out := DiagnosticsPublisher.publish .lint urlMap tok diagnostics store
      state (t + 1)
    ⟨out.store, out.state, tsStore, out.events,
      batch_index.map (fun batch_index => ⟨batch_index, out.messages_sent⟩)⟩

/-! ## The type-check adapter -/

/-- Modelled from the spec: `crate::tsc::Position` of the external
type-check service (UTF-16 line/character of a raw diagnostic). -/
structure TscPosition where
  line : Nat
  character : Nat
deriving DecidableEq, Repr

/-- Modelled from the spec: `crate::tsc::DiagnosticCategory` of the
external type-check service. -/
inductive TscCategory where
  | error
  | warning
  | suggestion
  | message
deriving DecidableEq, Repr

/-- Modelled from the spec: `crate::tsc::Diagnostic`, a raw record from
the external checker, with `message_chain` kept as its already-formatted
rendering (`format_message` lives in the external service). The type is
recursive through `related_information`. -/
inductive TscDiagnostic where
  | mk (start? end? : Option TscPosition) (file_name : Option String)
      (message_text message_chain : Option String)
      (related_information : Option (List TscDiagnostic))
      (category : TscCategory) (code : Int)

/-- start position accessor. -/
def TscDiagnostic.start? : TscDiagnostic → Option TscPosition
  | .mk s _ _ _ _ _ _ _ => s

/-- end position accessor. -/
def TscDiagnostic.end? : TscDiagnostic → Option TscPosition
  | .mk _ e _ _ _ _ _ _ => e

/-- file name accessor. -/
def TscDiagnostic.file_name : TscDiagnostic → Option String
  | .mk _ _ f _ _ _ _ _ => f

/-- message text accessor. -/
def TscDiagnostic.message_text : TscDiagnostic → Option String
  | .mk _ _ _ m _ _ _ _ => m

/-- message chain accessor (already formatted). -/
def TscDiagnostic.message_chain : TscDiagnostic → Option String
  | .mk _ _ _ _ c _ _ _ => c

/-- related information accessor. -/
def TscDiagnostic.related_information :
    TscDiagnostic → Option (List TscDiagnostic)
  | .mk _ _ _ _ _ r _ _ => r

/-- category accessor. -/
def TscDiagnostic.category : TscDiagnostic → TscCategory
  | .mk _ _ _ _ _ _ c _ => c

/-- code accessor. -/
def TscDiagnostic.code : TscDiagnostic → Int
  | .mk _ _ _ _ _ _ _ c => c

/-- `From<&tsc::DiagnosticCategory> for lsp::DiagnosticSeverity`. -/
def categoryToSeverity : TscCategory → Severity
  | .error => .error
  | .warning => .warning
  | .suggestion => .hint
  | .message => .information

/-- `From<&tsc::Position> for lsp::Position`. -/
def tscPositionToLsp (pos : TscPosition) : Position :=
  ⟨pos.line, pos.character⟩

/-- `to_lsp_range` from `cli/lsp/diagnostics.rs`. -/
def to_lsp_range (start «end» : TscPosition) : Range :=
  ⟨tscPositionToLsp start, tscPositionToLsp «end»⟩

/-- `get_diagnostic_message` from `cli/lsp/diagnostics.rs`. -/
def get_diagnostic_message (diagnostic : TscDiagnostic) : String :=
  match diagnostic.message_text with
  | some message => message
  | none =>
    match diagnostic.message_chain with
    | some message_chain => message_chain
    | none => "[missing message]"

/-- `to_lsp_related_information` from `cli/lsp/diagnostics.rs`. -/
def to_lsp_related_information
    (related_information : Option (List TscDiagnostic)) :
    Option (List RelatedInformation) :=
  related_information.map (fun related =>
    related.filterMap (fun ri =>
      match ri.file_name, ri.start?, ri.end? with
      | some file_name, some s, some e =>
        some ⟨file_name, to_lsp_range s e, get_diagnostic_message ri⟩
      | _, _, _ => none))

/-- The fixed code set receiving the `Unnecessary` tag. -/
def unnecessaryCodes : List Int :=
  [2695, 6133, 6138, 6192, 6196, 6198, 6199, 6205, 7027, 7028]

/-- The fixed code set receiving the `Deprecated` tag. -/
def deprecatedCodes : List Int :=
  [2789, 6385, 6387]

/-- `ts_json_to_diagnostics` from `cli/lsp/diagnostics.rs`: records with
no start or end position are dropped; tags are purely code-driven. -/
def ts_json_to_diagnostics (diagnostics : List TscDiagnostic) :
    List Diagnostic :=
  diagnostics.filterMap (fun d =>
    match d.start?, d.end? with
    | some start, some «end» =>
      some { range := to_lsp_range start «end»
             severity := some (categoryToSeverity d.category)
             code := some (.num d.code)
             source := some (DiagnosticSource.ts.as_lsp_source)
             message := get_diagnostic_message d
             relatedInformation :=
               to_lsp_related_information d.related_information
             tags :=
               if d.code ∈ unnecessaryCodes then some [.unnecessary]
               else if d.code ∈ deprecatedCodes then some [.deprecated]
               else none
             data := none }
    | _, _ => none)

/-- An open diagnosable document of the snapshot: its specifier and
`maybe_lsp_version()`. -/
structure OpenDocument where
  specifier : Specifier
  version : Option Int
deriving DecidableEq, Repr

/-- The part of `StateSnapshot` that `generate_ts_diagnostics` reads:
the open diagnosable documents (same list serves `documents()` and
`documents.get`). -/
structure TsSnapshot where
  documents : List OpenDocument
deriving Repr

/-- `snapshot.documents.get(specifier).and_then(maybe_lsp_version)`. -/
def TsSnapshot.docVersion (snapshot : TsSnapshot) (specifier : Specifier) :
    Option Int :=
  (snapshot.documents.find? (fun d => decide (d.specifier = specifier))).bind
    (fun d => d.version)

/-- `generate_ts_diagnostics` from `cli/lsp/diagnostics.rs`.  The external
service handle `ts_server.get_diagnostics` is a function from the
requested specifier list to the returned map; the config's
`specifier_enabled` is a boolean predicate. -/
def generate_ts_diagnostics
    (ts_server : List Specifier → List (Specifier × List TscDiagnostic))
    (snapshot : TsSnapshot) (config : Specifier → Bool) : DiagnosticVec :=
  let specifiers := snapshot.documents.map (fun d => d.specifier)
  let part := specifiers.partition (fun s => config s)
  let enabled_specifiers := part.1
  let disabled_specifiers := part.2
  let ts_diagnostics_map :=
    if !enabled_specifiers.isEmpty then ts_server enabled_specifiers else []
  let fromReply := ts_diagnostics_map.map (fun p =>
    let specifier := p.1
    let version := snapshot.docVersion specifier
    let ts_diagnostics :=
      if config specifier then ts_json_to_diagnostics p.2 else []
    DiagnosticRecord.mk specifier ⟨version, ts_diagnostics⟩)
  fromReply ++ disabled_specifiers.map (fun specifier =>
    DiagnosticRecord.mk specifier ⟨snapshot.docVersion specifier, []⟩)

/-- The trivial LSP url map: `normalize_specifier` always falls back to
the raw specifier. -/
def rawUrlMap : Specifier → Option Specifier := fun _ => none

/-- A diagnostic's `data` payload is well-formed for its code: present
and of the shape `get_code_action` deserializes for that code (no
constraint for codes that need no payload). -/
def dataWellFormed (d : Diagnostic) : Bool :=
  match d.code with
  | some (.str code) =>
    match code with
    | "import-map-remap" =>
      match d.data with
      | some (.importMapRemap _ _) => true
      | _ => false
    | "no-cache" | "no-cache-npm" =>
      match d.data with
      | some (.specifierData _) => true
      | _ => false
    | "no-local" =>
      match d.data with
      | some (.noLocalData _ _) => true
      | _ => false
    | "redirect" =>
      match d.data with
      | some (.redirectData _) => true
      | _ => false
    | "import-node-prefix-missing" =>
      match d.data with
      | some (.strSpecifier _) => true
      | _ => false
    | _ => true
  | _ => true

/-! ## Lemmas on the association-list operations -/

theorem alookup_aset_self {α β : Type} [DecidableEq α] (l : List (α × β))
    (a : α) (b : β) : alookup (aset l a b) a = some b := by
  induction l with
  | nil => simp [aset, alookup]
  | cons hd tl ih =>
    obtain ⟨k, v⟩ := hd
    by_cases h : a = k <;> simp [aset, alookup, h, ih]

theorem alookup_aset_ne {α β : Type} [DecidableEq α] (l : List (α × β))
    (a a' : α) (b : β) (h : a' ≠ a) :
    alookup (aset l a b) a' = alookup l a' := by
  induction l with
  | nil => simp [aset, alookup, h]
  | cons hd tl ih =>
    obtain ⟨k, v⟩ := hd
    by_cases hk : a = k
    · subst hk
      simp [aset, alookup, h]
    · by_cases hk' : a' = k <;> simp [aset, alookup, hk, hk', ih]

theorem aset_ne_nil {α β : Type} [DecidableEq α] (l : List (α × β))
    (a : α) (b : β) : aset l a b ≠ [] := by
  cases l with
  | nil => simp [aset]
  | cons hd tl =>
    obtain ⟨k, v⟩ := hd
    by_cases h : a = k <;> simp [aset, h]

theorem mem_of_mem_aset {α β : Type} [DecidableEq α]
    {l : List (α × β)} {a x : α} {b y : β}
    (h : (x, y) ∈ aset l a b) : (x = a ∧ y = b) ∨ (x, y) ∈ l := by
  induction l with
  | nil =>
    simp [aset] at h
    exact Or.inl h
  | cons hd tl ih =>
    obtain ⟨k, v⟩ := hd
    by_cases hk : a = k
    · subst hk
      rw [show aset ((a, v) :: tl) a b = (a, b) :: tl from by simp [aset]] at h
      rcases List.mem_cons.mp h with h1 | h2
      · cases h1
        exact Or.inl ⟨rfl, rfl⟩
      · exact Or.inr (List.mem_cons_of_mem _ h2)
    · rw [show aset ((k, v) :: tl) a b = (k, v) :: aset tl a b from by
        simp [aset, hk]] at h
      rcases List.mem_cons.mp h with h1 | h2
      · exact Or.inr (by simp [h1])
      · rcases ih h2 with h3 | h3
        · exact Or.inl h3
        · exact Or.inr (List.mem_cons_of_mem _ h3)

theorem alookup_append_not_mem {α β : Type} [DecidableEq α]
    {l1 : List (α × β)} (l2 : List (α × β)) {a : α}
    (h : a ∉ l1.map Prod.fst) : alookup (l1 ++ l2) a = alookup l2 a := by
  induction l1 with
  | nil => simp
  | cons hd tl ih =>
    obtain ⟨k, v⟩ := hd
    rw [List.map_cons, List.mem_cons] at h
    push_neg at h
    rw [List.cons_append,
      show alookup ((k, v) :: (tl ++ l2)) a = alookup (tl ++ l2) a from by
        simp [alookup, h.1]]
    exact ih h.2

theorem map_fst_aset {α β : Type} [DecidableEq α] (l : List (α × β))
    (a : α) (b : β) :
    (aset l a b).map Prod.fst = l.map Prod.fst ∨
      (aset l a b).map Prod.fst = l.map Prod.fst ++ [a] := by
  induction l with
  | nil => simp [aset]
  | cons hd tl ih =>
    obtain ⟨k, v⟩ := hd
    by_cases hk : a = k
    · subst hk
      simp [aset]
    · rcases ih with h | h <;>
        simp only [aset, if_neg hk, List.map_cons, h] <;> simp

theorem keys_mem_of_mem_aset {α β : Type} [DecidableEq α]
    {l : List (α × β)} {a x : α} {b : β}
    (h : x ∈ ((aset l a b).map Prod.fst)) :
    x ∈ l.map Prod.fst ∨ x = a := by
  rcases map_fst_aset l a b with heq | heq
  · rw [heq] at h; exact Or.inl h
  · rw [heq] at h
    rcases List.mem_append.mp h with h | h
    · exact Or.inl h
    · exact Or.inr (by simpa using h)

theorem keysNodup_aset {α β : Type} [DecidableEq α] {l : List (α × β)}
    (a : α) (b : β) (h : keysNodup l) : keysNodup (aset l a b) := by
  unfold keysNodup at *
  induction l with
  | nil => simp [aset]
  | cons hd tl ih =>
    obtain ⟨k, v⟩ := hd
    rw [List.map_cons, List.nodup_cons] at h
    by_cases hk : a = k
    · subst hk
      rw [show aset ((a, v) :: tl) a b = (a, b) :: tl from by simp [aset]]
      rw [List.map_cons, List.nodup_cons]
      exact h
    · have htl := ih h.2
      simp only [aset, if_neg hk, List.map_cons, List.nodup_cons]
      refine ⟨fun hx => ?_, htl⟩
      rcases keys_mem_of_mem_aset hx with h' | h'
      · exact h.1 h'
      · exact hk h'.symm

theorem alookup_eq_some_of_mem {α β : Type} [DecidableEq α]
    {l : List (α × β)} {a : α} {b : β} (hn : keysNodup l)
    (h : (a, b) ∈ l) : alookup l a = some b := by
  induction l with
  | nil => simp at h
  | cons hd tl ih =>
    obtain ⟨k, v⟩ := hd
    rw [keysNodup, List.map_cons, List.nodup_cons] at hn
    rcases List.mem_cons.mp h with h1 | h2
    · cases h1
      simp [alookup]
    · have hak : a ≠ k := by
        intro hak
        subst hak
        exact hn.1 (List.mem_map.mpr ⟨(a, b), h2, rfl⟩)
      rw [show alookup ((k, v) :: tl) a = alookup tl a from by
        simp [alookup, hak]]
      exact ih hn.2 h2

theorem mem_of_alookup_eq_some {α β : Type} [DecidableEq α]
    {l : List (α × β)} {a : α} {b : β} (h : alookup l a = some b) :
    (a, b) ∈ l := by
  induction l with
  | nil => simp [alookup] at h
  | cons hd tl ih =>
    obtain ⟨k, v⟩ := hd
    by_cases hk : a = k
    · subst hk
      rw [show alookup ((a, v) :: tl) a = some v from by simp [alookup]] at h
      injection h with h
      simp [h]
    · rw [show alookup ((k, v) :: tl) a = alookup tl a from by
        simp [alookup, hk]] at h
      exact List.mem_cons_of_mem _ (ih h)

theorem alookup_filter_not_mem {α β : Type} [DecidableEq α]
    (l : List (α × β)) (rs : List α) (a : α) (h : a ∈ rs) :
    alookup (l.filter (fun e => decide (e.1 ∉ rs))) a = none := by
  induction l with
  | nil => simp [alookup]
  | cons hd tl ih =>
    obtain ⟨k, v⟩ := hd
    by_cases hk : k ∈ rs
    · rw [show ((k, v) :: tl).filter (fun e => decide (e.1 ∉ rs))
          = tl.filter (fun e => decide (e.1 ∉ rs)) from by
        simp [List.filter, hk]]
      exact ih
    · have hak : a ≠ k := fun hak => by subst hak; exact hk h
      rw [show ((k, v) :: tl).filter (fun e => decide (e.1 ∉ rs))
          = (k, v) :: tl.filter (fun e => decide (e.1 ∉ rs)) from by
        simp [List.filter, hk]]
      rw [show alookup ((k, v) :: tl.filter (fun e => decide (e.1 ∉ rs))) a
          = alookup (tl.filter (fun e => decide (e.1 ∉ rs))) a from by
        simp [alookup, hak]]
      exact ih

theorem alookup_filter_mem {α β : Type} [DecidableEq α]
    (l : List (α × β)) (rs : List α) (a : α) (h : a ∉ rs) :
    alookup (l.filter (fun e => decide (e.1 ∉ rs))) a = alookup l a := by
  induction l with
  | nil => simp [alookup]
  | cons hd tl ih =>
    obtain ⟨k, v⟩ := hd
    by_cases hk : k ∈ rs
    · have hak : a ≠ k := fun hak => by subst hak; exact h hk
      rw [show ((k, v) :: tl).filter (fun e => decide (e.1 ∉ rs))
          = tl.filter (fun e => decide (e.1 ∉ rs)) from by
        simp [List.filter, hk]]
      rw [show alookup ((k, v) :: tl) a = alookup tl a from by
        simp [alookup, hak]]
      exact ih
    · rw [show ((k, v) :: tl).filter (fun e => decide (e.1 ∉ rs))
          = (k, v) :: tl.filter (fun e => decide (e.1 ∉ rs)) from by
        simp [List.filter, hk]]
      by_cases hak : a = k
      · subst hak
        simp [alookup]
      · rw [show alookup ((k, v) :: tl.filter (fun e => decide (e.1 ∉ rs))) a
            = alookup (tl.filter (fun e => decide (e.1 ∉ rs))) a from by
          simp [alookup, hak]]
        rw [show alookup ((k, v) :: tl) a = alookup tl a from by
          simp [alookup, hak]]
        exact ih

theorem alookup_split {α β : Type} [DecidableEq α]
    {l : List (α × β)} {a : α} {b : β} (hn : keysNodup l)
    (h : alookup l a = some b) :
    ∃ l1 l2, l = l1 ++ (a, b) :: l2 ∧ a ∉ l1.map Prod.fst ∧
      a ∉ l2.map Prod.fst := by
  induction l with
  | nil => simp [alookup] at h
  | cons hd tl ih =>
    obtain ⟨k, v⟩ := hd
    rw [keysNodup, List.map_cons, List.nodup_cons] at hn
    by_cases hk : a = k
    · subst hk
      rw [show alookup ((a, v) :: tl) a = some v from by simp [alookup]] at h
      injection h with h
      subst h
      exact ⟨[], tl, by simp, by simp, hn.1⟩
    · rw [show alookup ((k, v) :: tl) a = alookup tl a from by
        simp [alookup, hk]] at h
      obtain ⟨l1, l2, h1, h2, h3⟩ := ih hn.2 h
      exact ⟨(k, v) :: l1, l2, by simp [h1], by
        simp only [List.map_cons, List.mem_cons]
        exact fun hc => hc.elim (fun he => hk he) h2, h3⟩

/-! ## Claims C6, C7, C10: the two stores -/

/-- C6: `DiagnosticsState.update(s, v′, diags)` leaves the stored map
unchanged whenever a record for `s` is stored with a version `v > v′`;
in every other case it stores `v′` for `s` together with exactly the
sublist of `diags` whose code is `"no-cache"` or `"no-cache-npm"`, and
leaves every other specifier's record unchanged. -/
theorem c6_state_update_version_guard :
    ∀ (st : StateMap) (s : Specifier) (v' : Option Int)
      (ds : List Diagnostic),
    (∀ a e, v' = some a →
      (alookup st s).bind (fun x => x.version) = some e → a < e →
      DiagnosticsState.update st s v' ds = st) ∧
    ((∀ a e, v' = some a →
        (alookup st s).bind (fun x => x.version) = some e → ¬a < e) →
      alookup (DiagnosticsState.update st s v' ds) s
          = some ⟨v', ds.filter isNoCacheCode⟩ ∧
      ∀ s2, s2 ≠ s →
        alookup (DiagnosticsState.update st s v' ds) s2 = alookup st s2) := by
  intro st s v' ds
  constructor
  · intro a e ha he hlt
    subst ha
    simp [DiagnosticsState.update, he, hlt]
  · intro h
    cases hv : v' with
    | none =>
      cases hc : (alookup st s).bind (fun x => x.version) with
      | none =>
        refine ⟨?_, fun s2 hs2 => ?_⟩
        · simp [DiagnosticsState.update, hc, alookup_aset_self]
        · simp [DiagnosticsState.update, hc, alookup_aset_ne _ _ _ _ hs2]
      | some e =>
        refine ⟨?_, fun s2 hs2 => ?_⟩
        · simp [DiagnosticsState.update, hc, alookup_aset_self]
        · simp [DiagnosticsState.update, hc, alookup_aset_ne _ _ _ _ hs2]
    | some a =>
      cases hc : (alookup st s).bind (fun x => x.version) with
      | none =>
        refine ⟨?_, fun s2 hs2 => ?_⟩
        · simp [DiagnosticsState.update, hc, alookup_aset_self]
        · simp [DiagnosticsState.update, hc, alookup_aset_ne _ _ _ _ hs2]
      | some e =>
        have hne : ¬a < e := h a e hv hc
        refine ⟨?_, fun s2 hs2 => ?_⟩
        · simp [DiagnosticsState.update, hc, hne, alookup_aset_self]
        · simp [DiagnosticsState.update, hc, hne,
            alookup_aset_ne _ _ _ _ hs2]

/-- C6 witness: with version 5 stored for `"a"`, an update tagged 3 is a
no-op, while an update tagged 7 overwrites and keeps only the
`no-cache`-coded diagnostics. -/
theorem c6_state_update_version_guard_witness :
    DiagnosticsState.update [("a", ⟨some 5, []⟩)] "a" (some 3)
        [⟨⟨⟨0, 0⟩, ⟨0, 0⟩⟩, none, some (.str "no-cache"), none, "", none,
          none, none⟩]
      = [("a", ⟨some 5, []⟩)] ∧
    alookup (DiagnosticsState.update [("a", ⟨some 5, []⟩)] "a" (some 7)
        [⟨⟨⟨0, 0⟩, ⟨0, 0⟩⟩, none, some (.str "no-cache"), none, "", none,
          none, none⟩,
         ⟨⟨⟨1, 0⟩, ⟨1, 0⟩⟩, none, some (.str "other"), none, "", none,
          none, none⟩]) "a"
      = some ⟨some 7,
          [⟨⟨⟨0, 0⟩, ⟨0, 0⟩⟩, none, some (.str "no-cache"), none, "", none,
            none, none⟩]⟩ := by
  constructor
  · exact (c6_state_update_version_guard [("a", ⟨some 5, []⟩)] "a" (some 3)
      _).1 3 5 rfl (by simp [alookup]) (by decide)
  · exact ((c6_state_update_version_guard [("a", ⟨some 5, []⟩)] "a" (some 7)
      _).2 (fun a e ha he => by
        simp [alookup] at ha he
        subst ha
        subst he
        decide)).1

/-- C7: `TsDiagnosticsStore.get(s, v)` returns the stored diagnostics
list for `s` exactly when the requested optional version equals the
stored one, and the empty list in every other case, including when no
entry for `s` exists. -/
theorem c7_ts_store_get_version_pinned :
    ∀ (store : TsStoreMap) (s : Specifier) (v : Option Int),
    (∀ versioned, alookup store s = some versioned →
      v = versioned.version →
      TsDiagnosticsStore.get store s v = versioned.diagnostics) ∧
    (∀ versioned, alookup store s = some versioned →
      v ≠ versioned.version → TsDiagnosticsStore.get store s v = []) ∧
    (alookup store s = none → TsDiagnosticsStore.get store s v = []) := by
  intro store s v
  refine ⟨fun versioned hl hv => ?_, fun versioned hl hv => ?_, fun hl => ?_⟩
  · simp [TsDiagnosticsStore.get, hl, hv]
  · simp [TsDiagnosticsStore.get, hl, hv]
  · simp [TsDiagnosticsStore.get, hl]

/-- C7 witness: matching versions (including two absent ones) return the
stored list; a mismatch or a missing entry returns `[]`. -/
theorem c7_ts_store_get_version_pinned_witness :
    TsDiagnosticsStore.get
        [("a", ⟨some 2, [{ range := ⟨⟨0, 0⟩, ⟨0, 0⟩⟩ }]⟩),
         ("b", ⟨none, [{ range := ⟨⟨1, 1⟩, ⟨1, 1⟩⟩ }]⟩)]
        "a" (some 2) = [{ range := ⟨⟨0, 0⟩, ⟨0, 0⟩⟩ }] ∧
    TsDiagnosticsStore.get
        [("a", ⟨some 2, [{ range := ⟨⟨0, 0⟩, ⟨0, 0⟩⟩ }]⟩),
         ("b", ⟨none, [{ range := ⟨⟨1, 1⟩, ⟨1, 1⟩⟩ }]⟩)]
        "b" none = [{ range := ⟨⟨1, 1⟩, ⟨1, 1⟩⟩ }] ∧
    TsDiagnosticsStore.get
        [("a", ⟨some 2, [{ range := ⟨⟨0, 0⟩, ⟨0, 0⟩⟩ }]⟩),
         ("b", ⟨none, [{ range := ⟨⟨1, 1⟩, ⟨1, 1⟩⟩ }]⟩)]
        "a" (some 3) = [] ∧
    TsDiagnosticsStore.get
        [("a", ⟨some 2, [{ range := ⟨⟨0, 0⟩, ⟨0, 0⟩⟩ }]⟩),
         ("b", ⟨none, [{ range := ⟨⟨1, 1⟩, ⟨1, 1⟩⟩ }]⟩)]
        "c" (some 2) = [] := by
  refine ⟨?_, ?_, ?_, ?_⟩
  · exact (c7_ts_store_get_version_pinned _ "a" (some 2)).1
      ⟨some 2, [{ range := ⟨⟨0, 0⟩, ⟨0, 0⟩⟩ }]⟩ (by simp [alookup]) rfl
  · exact (c7_ts_store_get_version_pinned _ "b" none).1
      ⟨none, [{ range := ⟨⟨1, 1⟩, ⟨1, 1⟩⟩ }]⟩ (by simp [alookup]) rfl
  · exact (c7_ts_store_get_version_pinned _ "a" (some 3)).2.1
      ⟨some 2, [{ range := ⟨⟨0, 0⟩, ⟨0, 0⟩⟩ }]⟩ (by simp [alookup])
      (by decide)
  · exact (c7_ts_store_get_version_pinned _ "c" (some 2)).2.2
      (by simp [alookup])

/-- C10: an update with an absent version always overwrites the stored
record, whatever version is stored; and when the stored version is
absent, any update overwrites as well — the monotonicity guard applies
only when both versions are present. -/
theorem c10_state_update_none_version_overwrites :
    ∀ (st : StateMap) (s : Specifier) (ds : List Diagnostic),
    (DiagnosticsState.update st s none ds
        = aset st s ⟨none, ds.filter isNoCacheCode⟩) ∧
    (alookup (DiagnosticsState.update st s none ds) s
        = some ⟨none, ds.filter isNoCacheCode⟩) ∧
    (∀ v' stored, alookup st s = some stored → stored.version = none →
      DiagnosticsState.update st s v' ds
        = aset st s ⟨v', ds.filter isNoCacheCode⟩) := by
  intro st s ds
  refine ⟨?_, ?_, fun v' stored hl hv => ?_⟩
  · simp [DiagnosticsState.update]
  · simp [DiagnosticsState.update, alookup_aset_self]
  · cases v' with
    | none => simp [DiagnosticsState.update]
    | some a => simp [DiagnosticsState.update, hl, hv]

/-- C10 witness: a stored version 1000000 is overwritten by an update
carrying no version. -/
theorem c10_state_update_none_version_overwrites_witness :
    alookup (DiagnosticsState.update [("a", ⟨some 1000000, []⟩)] "a" none
      [⟨⟨⟨0, 0⟩, ⟨0, 0⟩⟩, none, some (.str "no-cache-npm"), none, "", none,
        none, none⟩]) "a"
      = some ⟨none,
          [⟨⟨⟨0, 0⟩, ⟨0, 0⟩⟩, none, some (.str "no-cache-npm"), none, "",
            none, none, none⟩]⟩ ∧
    DiagnosticsState.update [("b", ⟨none, []⟩)] "b" (some 1) []
      = aset [("b", ⟨none, []⟩)] "b" ⟨some 1, []⟩ := by
  constructor
  · exact (c10_state_update_none_version_overwrites
      [("a", ⟨some 1000000, []⟩)] "a" _).2.1
  · exact (c10_state_update_none_version_overwrites
      [("b", ⟨none, []⟩)] "b" []).2.2 (some 1) ⟨none, []⟩
      (by simp [alookup]) rfl

/-! ## Claim C9: the relative-specifier helper -/

theorem startsWithDot_dotSlash (s : String) :
    startsWithDot ("./" ++ s) = true := by
  have h : ("./" ++ s).toList = '.' :: '/' :: s.toList := by
    simp [String.toList]
  simp [startsWithDot, h]

/-- C9 counterexample: both URLs have scheme `file`, but their hosts
differ, so `make_relative` fails and the redirect URL's absolute string —
not a relative path — is returned. -/
theorem c9_redirected_counterexample :
    (Url.mk "file" "h" "/a.ts" none none).scheme = "file" ∧
    (Url.mk "file" "" "/mod.ts" none none).scheme = "file" ∧
    specifier_text_for_redirected (Url.mk "file" "h" "/a.ts" none none)
        (Url.mk "file" "" "/mod.ts" none none)
      = "file://h/a.ts" ∧
    startsWithDot (specifier_text_for_redirected
        (Url.mk "file" "h" "/a.ts" none none)
        (Url.mk "file" "" "/mod.ts" none none)) = false := by
  decide

/-- C9 amended: `specifier_text_for_redirected(redirect, referrer)`
returns a path beginning with `.` or `..` exactly when both URLs have
scheme `file` and the same host; in every other case (either URL not
`file`, or `file` hosts that differ, where `make_relative` fails) it
returns the redirect URL's string; and the four concrete examples of the
spec evaluate as stated. -/
theorem c9_redirected_relative_amended :
    ∀ redirect referrer : Url,
    (redirect.scheme = "file" → referrer.scheme = "file" →
      referrer.host = redirect.host →
      startsWithDot (specifier_text_for_redirected redirect referrer)
        = true) ∧
    (¬(redirect.scheme = "file" ∧ referrer.scheme = "file") →
      specifier_text_for_redirected redirect referrer = redirect.toStr) ∧
    (redirect.scheme = "file" → referrer.scheme = "file" →
      referrer.host ≠ redirect.host →
      specifier_text_for_redirected redirect referrer = redirect.toStr) ∧
    specifier_text_for_redirected (Url.mk "file" "" "/a/a.ts" none none)
        (Url.mk "file" "" "/a/mod.ts" none none) = "./a.ts" ∧
    specifier_text_for_redirected (Url.mk "file" "" "/a/a.ts" none none)
        (Url.mk "file" "" "/a/sub/mod.ts" none none) = "../a.ts" ∧
    specifier_text_for_redirected (Url.mk "file" "" "/a/sub/a.ts" none none)
        (Url.mk "file" "" "/a/mod.ts" none none) = "./sub/a.ts" ∧
    specifier_text_for_redirected (Url.mk "https" "ex" "/mod.ts" none none)
        (Url.mk "file" "" "/a/sub/a.ts" none none) = "https://ex/mod.ts" := by
  intro redirect referrer
  refine ⟨fun h1 h2 h3 => ?_, fun h => ?_, fun h1 h2 h3 => ?_,
    by decide, by decide, by decide, by decide⟩
  · rw [specifier_text_for_redirected, if_pos ⟨h1, h2⟩]
    have hsome : ∃ r, referrer.makeRelative redirect = some r := by
      rw [Url.makeRelative, if_neg (by simp [h1, h2, h3])]
      exact ⟨_, rfl⟩
    obtain ⟨r, hr⟩ := hsome
    simp only [relative_specifier, hr]
    split
    · next hdot => exact hdot
    · exact startsWithDot_dotSlash _
  · rw [specifier_text_for_redirected, if_neg h]
  · rw [specifier_text_for_redirected, if_pos ⟨h1, h2⟩]
    have hnone : referrer.makeRelative redirect = none := by
      rw [Url.makeRelative, if_pos (Or.inr h3)]
    simp only [relative_specifier, hnone]

/-- C9 witness: the amended theorem applied at the spec's concrete
inputs — a same-host `file`-to-`file` redirect yields a dot-relative
path, a cross-scheme redirect yields the absolute string, and a
host-mismatched `file` redirect yields the absolute string. -/
theorem c9_redirected_relative_amended_witness :
    startsWithDot (specifier_text_for_redirected
        (Url.mk "file" "" "/a/a.ts" none none)
        (Url.mk "file" "" "/a/mod.ts" none none)) = true ∧
    specifier_text_for_redirected (Url.mk "https" "ex" "/mod.ts" none none)
        (Url.mk "file" "" "/a/sub/a.ts" none none)
      = (Url.mk "https" "ex" "/mod.ts" none none).toStr ∧
    specifier_text_for_redirected (Url.mk "file" "h" "/a.ts" none none)
        (Url.mk "file" "" "/mod.ts" none none)
      = (Url.mk "file" "h" "/a.ts" none none).toStr := by
  refine ⟨(c9_redirected_relative_amended _ _).1 rfl rfl rfl,
    (c9_redirected_relative_amended _ _).2.1 (by decide),
    (c9_redirected_relative_amended _ _).2.2.1 rfl rfl (by decide)⟩

/-! ## Claim C5: fixability versus code-action generation -/

/-- C5 counterexample: a diagnostic with string code `no-cache` and no
`data` payload is reported fixable, yet `get_code_action` returns an
error, refuting the claimed equivalence. -/
theorem c5_fixable_counterexample :
    DenoDiagnostic.is_fixable
        { range := ⟨⟨0, 0⟩, ⟨0, 0⟩⟩, code := some (.str "no-cache") }
      = true ∧
    (DenoDiagnostic.get_code_action (Url.mk "file" "" "/a.ts" none none)
        { range := ⟨⟨0, 0⟩, ⟨0, 0⟩⟩, code := some (.str "no-cache") }).isOk
      = false := by
  decide

/-- C5 amended: `get_code_action` succeeds only on fixable diagnostics,
and for diagnostics whose `data` payload is well-formed for their code,
`is_fixable` is equivalent to `get_code_action` succeeding.  (The
unamended claim fails only for fixable codes whose required payload is
absent or malformed, where `get_code_action` errors.) -/
theorem c5_fixable_iff_code_action_ok_amended :
    ∀ (s : Url) (d : Diagnostic),
    ((DenoDiagnostic.get_code_action s d).isOk = true →
      DenoDiagnostic.is_fixable d = true) ∧
    (dataWellFormed d = true →
      (DenoDiagnostic.is_fixable d = true ↔
        (DenoDiagnostic.get_code_action s d).isOk = true)) := by
  intro s d
  unfold DenoDiagnostic.get_code_action DenoDiagnostic.is_fixable
    dataWellFormed
  rcases d with ⟨range, severity, code, source, message, ri, tags, data⟩
  rcases code with _ | code
  · simp [Except.isOk, Except.toBool]
  rcases code with n | code
  · simp [Except.isOk, Except.toBool]
  simp only
  split
  all_goals
    first
    | (simp [Except.isOk, Except.toBool]; done)
    | (cases data with
       | none => simp [Except.isOk, Except.toBool]
       | some d2 =>
         cases d2 <;>
           simp [parseDataImportMapRemap, parseDataSpecifier,
             parseDataStrSpecifier, parseDataRedirect, parseDataNoLocal,
             Except.isOk, Except.toBool])

/-- C5 witness: a well-formed `redirect` diagnostic is fixable and its
code action succeeds; an `unknown-code` diagnostic is not fixable. -/
theorem c5_fixable_iff_code_action_ok_amended_witness :
    ((DenoDiagnostic.get_code_action (Url.mk "file" "" "/a.ts" none none)
        { range := ⟨⟨0, 0⟩, ⟨0, 0⟩⟩, code := some (.str "redirect"),
          data := some (.redirectData (Url.mk "file" "" "/b.ts" none none))
        }).isOk = true →
      DenoDiagnostic.is_fixable
        { range := ⟨⟨0, 0⟩, ⟨0, 0⟩⟩, code := some (.str "redirect"),
          data := some (.redirectData (Url.mk "file" "" "/b.ts" none none))
        } = true) ∧
    (DenoDiagnostic.is_fixable
        { range := ⟨⟨0, 0⟩, ⟨0, 0⟩⟩, code := some (.str "redirect"),
          data := some (.redirectData (Url.mk "file" "" "/b.ts" none none))
        } = true ↔
      (DenoDiagnostic.get_code_action (Url.mk "file" "" "/a.ts" none none)
        { range := ⟨⟨0, 0⟩, ⟨0, 0⟩⟩, code := some (.str "redirect"),
          data := some (.redirectData (Url.mk "file" "" "/b.ts" none none))
        }).isOk = true) := by
  exact ⟨(c5_fixable_iff_code_action_ok_amended _ _).1,
    (c5_fixable_iff_code_action_ok_amended _ _).2 (by decide)⟩

/-! ## Claim C8: the type-check adapter -/

/-- C8: `generate_ts_diagnostics` partitions the open diagnosable
specifiers by the config; when no specifier is enabled the external
checker is never consulted (the result does not depend on it); reply
entries whose specifier the config reports disabled at emit time yield a
record with an empty diagnostics list; reply entries for enabled
specifiers carry the translated diagnostics; and every disabled
specifier yields an empty record tagged with the document's current
version. -/
theorem c8_generate_ts_diagnostics_partition :
    ∀ (f g : List Specifier → List (Specifier × List TscDiagnostic))
      (snapshot : TsSnapshot) (config : Specifier → Bool),
    (((snapshot.documents.map (fun d => d.specifier)).filter
        (fun s => config s)) = [] →
      generate_ts_diagnostics f snapshot config
        = generate_ts_diagnostics g snapshot config) ∧
    (∀ s ds,
      (s, ds) ∈ (if !((snapshot.documents.map (fun d => d.specifier)).filter
          (fun s => config s)).isEmpty then
        f ((snapshot.documents.map (fun d => d.specifier)).filter
          (fun s => config s)) else []) →
      config s = false →
      DiagnosticRecord.mk s ⟨snapshot.docVersion s, []⟩
        ∈ generate_ts_diagnostics f snapshot config) ∧
    (∀ s ds,
      (s, ds) ∈ (if !((snapshot.documents.map (fun d => d.specifier)).filter
          (fun s => config s)).isEmpty then
        f ((snapshot.documents.map (fun d => d.specifier)).filter
          (fun s => config s)) else []) →
      config s = true →
      DiagnosticRecord.mk s
          ⟨snapshot.docVersion s, ts_json_to_diagnostics ds⟩
        ∈ generate_ts_diagnostics f snapshot config) ∧
    (∀ s ∈ snapshot.documents.map (fun d => d.specifier),
      config s = false →
      DiagnosticRecord.mk s ⟨snapshot.docVersion s, []⟩
        ∈ generate_ts_diagnostics f snapshot config) := by
  intro f g snapshot config
  refine ⟨fun hempty => ?_, fun s ds hmem hdis => ?_, fun s ds hmem hen => ?_,
    fun s hs hdis => ?_⟩
  · simp only [generate_ts_diagnostics, List.partition_eq_filter_filter]
    simp only [hempty]
    simp
  · simp only [generate_ts_diagnostics, List.partition_eq_filter_filter]
    refine List.mem_append_left _ ?_
    refine List.mem_map.mpr ⟨(s, ds), by simpa using hmem, ?_⟩
    simp [hdis]
  · simp only [generate_ts_diagnostics, List.partition_eq_filter_filter]
    refine List.mem_append_left _ ?_
    refine List.mem_map.mpr ⟨(s, ds), by simpa using hmem, ?_⟩
    simp [hen]
  · simp only [generate_ts_diagnostics, List.partition_eq_filter_filter]
    refine List.mem_append_right _ ?_
    refine List.mem_map.mpr ⟨s, ?_, rfl⟩
    refine List.mem_filter.mpr ⟨hs, ?_⟩
    simp [hdis]

/-- C8 witness: one enabled document `"a"` (reply translated), one
disabled document `"b"` (empty record emitted); with both disabled, the
external checker's answer is irrelevant. -/
theorem c8_generate_ts_diagnostics_partition_witness :
    DiagnosticRecord.mk "b"
        ⟨(TsSnapshot.mk [⟨"a", some 1⟩, ⟨"b", some 2⟩]).docVersion "b", []⟩
      ∈ generate_ts_diagnostics (fun _ => [("a", [])])
          (TsSnapshot.mk [⟨"a", some 1⟩, ⟨"b", some 2⟩])
          (fun s => decide (s = "a")) ∧
    DiagnosticRecord.mk "a"
        ⟨(TsSnapshot.mk [⟨"a", some 1⟩, ⟨"b", some 2⟩]).docVersion "a",
          ts_json_to_diagnostics []⟩
      ∈ generate_ts_diagnostics (fun _ => [("a", [])])
          (TsSnapshot.mk [⟨"a", some 1⟩, ⟨"b", some 2⟩])
          (fun s => decide (s = "a")) ∧
    generate_ts_diagnostics (fun _ => [("a", [])])
        (TsSnapshot.mk [⟨"a", some 1⟩, ⟨"b", some 2⟩]) (fun _ => false)
      = generate_ts_diagnostics (fun _ => [("oops", [])])
        (TsSnapshot.mk [⟨"a", some 1⟩, ⟨"b", some 2⟩]) (fun _ => false) := by
  refine ⟨?_, ?_, ?_⟩
  · exact (c8_generate_ts_diagnostics_partition (fun _ => [("a", [])])
      (fun _ => [])
      (TsSnapshot.mk [⟨"a", some 1⟩, ⟨"b", some 2⟩])
      (fun s => decide (s = "a"))).2.2.2 "b" (by decide) (by decide)
  · exact (c8_generate_ts_diagnostics_partition (fun _ => [("a", [])])
      (fun _ => [])
      (TsSnapshot.mk [⟨"a", some 1⟩, ⟨"b", some 2⟩])
      (fun s => decide (s = "a"))).2.2.1 "a" []
      (by rw [if_pos (by decide)]; exact List.mem_singleton.mpr rfl)
      (by decide)
  · exact (c8_generate_ts_diagnostics_partition (fun _ => [("a", [])])
      (fun _ => [("oops", [])])
      (TsSnapshot.mk [⟨"a", some 1⟩, ⟨"b", some 2⟩]) (fun _ => false)).1
      (by decide)

/-! ## Claim C1: the batch-completion notification -/

/-- C1 counterexample: an update carrying batch index 0 whose token is
cancelled during the type task's 200 ms debounce wait produces no
`DiagnosticBatchNotification` at all — the future returns from inside
the `select` before reaching the notification send. -/
theorem c1_batch_notify_counterexample :
    (typeTask rawUrlMap (fun _ => true) (some 0) [] [] [] [] 0).sent
      = none := by
  decide

/-- C1 amended: when the update carries a batch index, the deps and lint
tasks always emit one `DiagnosticBatchNotification` before finishing —
with `messages_len = 0` whenever the token was already cancelled at
their pre-publication guard; the type task does so only when its token
survives the debounce `select` (a cancellation observed there makes the
task return without emitting), again with `messages_len = 0` when the
token is cancelled at its guard. -/
theorem c1_batch_notify_amended :
    ∀ (urlMap : Specifier → Option Specifier) (tok : Nat → Bool) (bi : Nat)
      (diagnostics : DiagnosticVec) (store : MergedStore) (state : StateMap)
      (tsStore : TsStoreMap) (t : Nat),
    ((depsTask urlMap tok (some bi) diagnostics store state tsStore
        t).sent.isSome = true ∧
      (tok t = true →
        (depsTask urlMap tok (some bi) diagnostics store state tsStore t).sent
          = some ⟨bi, 0⟩)) ∧
    ((lintTask urlMap tok (some bi) diagnostics store state tsStore
        t).sent.isSome = true ∧
      (tok t = true →
        (lintTask urlMap tok (some bi) diagnostics store state tsStore t).sent
          = some ⟨bi, 0⟩)) ∧
    (tok t = true →
      (typeTask urlMap tok (some bi) diagnostics store state tsStore t).sent
        = none) ∧
    (tok t = false →
      (typeTask urlMap tok (some bi) diagnostics store state tsStore
          t).sent.isSome = true ∧
      (tok (t + 1) = true →
        (typeTask urlMap tok (some bi) diagnostics store state tsStore t).sent
          = some ⟨bi, 0⟩)) := by
  intro urlMap tok bi diagnostics store state tsStore t
  refine ⟨⟨?_, fun h => ?_⟩, ⟨?_, fun h => ?_⟩, fun h => ?_, fun h => ?_⟩
  · unfold depsTask
    split <;> simp
  · simp [depsTask, h]
  · unfold lintTask
    split <;> simp
  · simp [lintTask, h]
  · simp [typeTask, h]
  · refine ⟨?_, fun h2 => ?_⟩
    · unfold typeTask
      rw [if_neg (by simp [h])]
      split <;> simp
    · simp [typeTask, h, h2]

/-- C1 witness: a deps task with an always-cancelled token still
notifies with `messages_len = 0`; a type task cancelled right after the
debounce notifies with `messages_len = 0`. -/
theorem c1_batch_notify_amended_witness :
    (depsTask rawUrlMap (fun _ => true) (some 3) [] [] [] [] 0).sent
      = some ⟨3, 0⟩ ∧
    (typeTask rawUrlMap (fun n => decide (1 ≤ n)) (some 3) [] [] [] [] 0).sent
      = some ⟨3, 0⟩ := by
  refine ⟨(c1_batch_notify_amended rawUrlMap (fun _ => true) 3 [] [] [] []
      0).1.2 rfl,
    ((c1_batch_notify_amended rawUrlMap (fun n => decide (1 ≤ n)) 3 [] [] []
      [] 0).2.2.2 (by decide)).2 (by decide)⟩

/-! ## Record-loop lemmas (uncancelled runs) -/

theorem publishRecordLoop_not_cancelled (source : DiagnosticSource)
    (urlMap : Specifier → Option Specifier) (rs : DiagnosticVec) :
    ∀ store state t,
    (publishRecordLoop source urlMap noCancel rs store state t).2.2.2.2.2
      = false := by
  induction rs with
  | nil => intro store state t; simp [publishRecordLoop]
  | cons r rest ih =>
    intro store state t
    simp only [publishRecordLoop, noCancel, Bool.false_eq_true, if_false]
    exact ih _ _ _

theorem publishRecordLoop_events_length (source : DiagnosticSource)
    (urlMap : Specifier → Option Specifier) (rs : DiagnosticVec) :
    ∀ store state t,
    (publishRecordLoop source urlMap noCancel rs store state t).2.2.1.length
      = rs.length := by
  induction rs with
  | nil => intro store state t; simp [publishRecordLoop]
  | cons r rest ih =>
    intro store state t
    simp only [publishRecordLoop, noCancel, Bool.false_eq_true, if_false,
      List.length_cons]
    rw [ih]

theorem publishRecordLoop_lookup_not_mem (source : DiagnosticSource)
    (urlMap : Specifier → Option Specifier) (rs : DiagnosticVec)
    (s : Specifier) (hs : s ∉ rs.map (fun r => r.specifier)) :
    ∀ store state t,
    alookup (publishRecordLoop source urlMap noCancel rs store state t).1 s
      = alookup store s := by
  induction rs with
  | nil => intro store state t; simp [publishRecordLoop]
  | cons r rest ih =>
    intro store state t
    rw [List.map_cons, List.mem_cons] at hs
    push_neg at hs
    simp only [publishRecordLoop, noCancel, Bool.false_eq_true, if_false]
    rw [ih hs.2]
    exact alookup_aset_ne _ _ _ _ hs.1

theorem publishRecordLoop_keysNodup (source : DiagnosticSource)
    (urlMap : Specifier → Option Specifier) (rs : DiagnosticVec) :
    ∀ store state t, keysNodup store →
    keysNodup (publishRecordLoop source urlMap noCancel rs store state t).1 := by
  induction rs with
  | nil => intro store state t h; simpa [publishRecordLoop] using h
  | cons r rest ih =>
    intro store state t h
    simp only [publishRecordLoop, noCancel, Bool.false_eq_true, if_false]
    exact ih _ _ _ (keysNodup_aset _ _ h)

theorem publishRecordLoop_lookup_mem (source : DiagnosticSource)
    (urlMap : Specifier → Option Specifier) (rs : DiagnosticVec)
    (s : Specifier) (hs : s ∈ rs.map (fun r => r.specifier)) :
    ∀ store state t,
    ∃ m, alookup (publishRecordLoop source urlMap noCancel rs store state t).1
        s = some m ∧ m ≠ [] := by
  induction rs with
  | nil => simp at hs
  | cons r rest ih =>
    intro store state t
    simp only [publishRecordLoop, noCancel, Bool.false_eq_true, if_false]
    by_cases hmem : s ∈ rest.map (fun r => r.specifier)
    · exact ih hmem _ _ _
    · rw [List.map_cons, List.mem_cons] at hs
      have hss : s = r.specifier := hs.resolve_right hmem
      subst hss
      refine ⟨aset ((alookup store r.specifier).getD []) source r.versioned,
        ?_, ?_⟩
      · rw [publishRecordLoop_lookup_not_mem source urlMap rest r.specifier
          hmem]
        exact alookup_aset_self _ _ _
      · exact aset_ne_nil _ _ _

theorem publishRecordLoop_events_uri (source : DiagnosticSource)
    (urlMap : Specifier → Option Specifier) (rs : DiagnosticVec) :
    ∀ store state t,
    ∀ e ∈ (publishRecordLoop source urlMap noCancel rs store state t).2.2.1,
      ∃ r ∈ rs, e.uri = normalizeSpecifier urlMap r.specifier := by
  induction rs with
  | nil => intro store state t e he; simp [publishRecordLoop] at he
  | cons r rest ih =>
    intro store state t e he
    simp only [publishRecordLoop, noCancel, Bool.false_eq_true, if_false]
      at he
    rcases List.mem_cons.mp he with he | he
    · exact ⟨r, List.mem_cons_self _ _, by simp [he, PublishEvent.uri]⟩
    · obtain ⟨r', hr', he'⟩ := ih _ _ _ e he
      exact ⟨r', List.mem_cons_of_mem _ hr', he'⟩

theorem publishRecordLoop_events_filter_raw (source : DiagnosticSource)
    (rs : DiagnosticVec) (s : Specifier)
    (hs : s ∉ rs.map (fun r => r.specifier)) (store : MergedStore)
    (state : StateMap) (t : Nat) :
    ((publishRecordLoop source rawUrlMap noCancel rs store state
        t).2.2.1).filter (fun e => decide (e.uri = s)) = [] := by
  rw [List.filter_eq_nil_iff]
  intro e he
  obtain ⟨r, hr, he'⟩ := publishRecordLoop_events_uri source rawUrlMap rs
    store state t e he
  simp only [normalizeSpecifier, rawUrlMap, Option.getD_none] at he'
  simp only [decide_eq_true_eq]
  intro hcontra
  apply hs
  rw [← hcontra, he']
  exact List.mem_map.mpr ⟨r, hr, rfl⟩

theorem publishRecordLoop_store_append (source : DiagnosticSource)
    (urlMap : Specifier → Option Specifier) (xs : DiagnosticVec) :
    ∀ (ys : DiagnosticVec) store state t,
    (publishRecordLoop source urlMap noCancel (xs ++ ys) store state t).1
      = (publishRecordLoop source urlMap noCancel ys
          (publishRecordLoop source urlMap noCancel xs store state t).1
          (publishRecordLoop source urlMap noCancel xs store state t).2.1
          (publishRecordLoop source urlMap noCancel xs store state
            t).2.2.2.2.1).1 := by
  induction xs with
  | nil => intro ys store state t; simp [publishRecordLoop]
  | cons x rest ih =>
    intro ys store state t
    simp only [List.cons_append, publishRecordLoop, noCancel,
      Bool.false_eq_true, if_false]
    exact ih _ _ _ _

theorem publishRecordLoop_state_append (source : DiagnosticSource)
    (urlMap : Specifier → Option Specifier) (xs : DiagnosticVec) :
    ∀ (ys : DiagnosticVec) store state t,
    (publishRecordLoop source urlMap noCancel (xs ++ ys) store state t).2.1
      = (publishRecordLoop source urlMap noCancel ys
          (publishRecordLoop source urlMap noCancel xs store state t).1
          (publishRecordLoop source urlMap noCancel xs store state t).2.1
          (publishRecordLoop source urlMap noCancel xs store state
            t).2.2.2.2.1).2.1 := by
  induction xs with
  | nil => intro ys store state t; simp [publishRecordLoop]
  | cons x rest ih =>
    intro ys store state t
    simp only [List.cons_append, publishRecordLoop, noCancel,
      Bool.false_eq_true, if_false]
    exact ih _ _ _ _

theorem publishRecordLoop_events_append (source : DiagnosticSource)
    (urlMap : Specifier → Option Specifier) (xs : DiagnosticVec) :
    ∀ (ys : DiagnosticVec) store state t,
    (publishRecordLoop source urlMap noCancel (xs ++ ys) store state t).2.2.1
      = (publishRecordLoop source urlMap noCancel xs store state t).2.2.1
        ++ (publishRecordLoop source urlMap noCancel ys
            (publishRecordLoop source urlMap noCancel xs store state t).1
            (publishRecordLoop source urlMap noCancel xs store state t).2.1
            (publishRecordLoop source urlMap noCancel xs store state
              t).2.2.2.2.1).2.2.1 := by
  induction xs with
  | nil => intro ys store state t; simp [publishRecordLoop]
  | cons x rest ih =>
    intro ys store state t
    simp only [List.cons_append, publishRecordLoop, noCancel,
      Bool.false_eq_true, if_false, List.append_eq]
    rw [ih]

/-- The event emitted for the `i`-th record of an uncancelled record loop
is a `publishDiagnostics` for that record's specifier carrying the union
of the per-source lists held in the merged store right after that
record's slot write (the store the loop reaches after the first `i+1`
records), tagged with the record's version. -/
theorem publishRecordLoop_event_get (source : DiagnosticSource)
    (urlMap : Specifier → Option Specifier) (rs : DiagnosticVec) :
    ∀ store state t (i : Nat) (h : i < rs.length),
    (publishRecordLoop source urlMap noCancel rs store state t).2.2.1[i]?
      = some (PublishEvent.publishDiagnostics
          (normalizeSpecifier urlMap (rs.get ⟨i, h⟩).specifier)
          (((alookup (publishRecordLoop source urlMap noCancel
              (rs.take (i + 1)) store state t).1
              (rs.get ⟨i, h⟩).specifier).getD []).flatMap
            (fun p => p.2.diagnostics))
          (rs.get ⟨i, h⟩).versioned.version) := by
  induction rs with
  | nil => intro store state t i h; simp at h
  | cons r rest ih =>
    intro store state t i h
    cases i with
    | zero =>
      rw [show (r :: rest).take 1 = [r] from rfl]
      simp only [publishRecordLoop, noCancel, Bool.false_eq_true, if_false,
        List.getElem?_cons_zero, List.get]
      rw [alookup_aset_self]
      simp
    | succ i =>
      rw [show (r :: rest).take (i + 1 + 1) = r :: rest.take (i + 1) from rfl]
      simp only [publishRecordLoop, noCancel, Bool.false_eq_true, if_false,
        List.getElem?_cons_succ, List.get]
      exact ih _ _ _ i (Nat.lt_of_succ_lt_succ h)

/-! ## Cleanup-loop characterizations (uncancelled runs) -/

theorem publishCleanupLoop_entries (source : DiagnosticSource)
    (urlMap : Specifier → Option Specifier) (seen : List Specifier)
    (entries : MergedStore) :
    ∀ state t,
    (publishCleanupLoop source urlMap noCancel seen entries state t).1
      = entries.map (fun e =>
          if e.1 ∈ seen then e else (e.1, aerase e.2 source)) := by
  induction entries with
  | nil => intro state t; simp [publishCleanupLoop]
  | cons e rest ih =>
    obtain ⟨s, m⟩ := e
    intro state t
    by_cases hseen : s ∈ seen
    · simp [publishCleanupLoop, hseen, ih]
    · by_cases hie : aerase m source = []
      · cases hrm : alookup m source with
        | some rv =>
          simp [publishCleanupLoop, hseen, noCancel, List.isEmpty_iff, hie,
            hrm, ih]
        | none =>
          simp [publishCleanupLoop, hseen, noCancel, List.isEmpty_iff, hie,
            hrm, ih]
      · simp [publishCleanupLoop, hseen, noCancel, List.isEmpty_iff, hie, ih]

theorem publishCleanupLoop_removals (source : DiagnosticSource)
    (urlMap : Specifier → Option Specifier) (seen : List Specifier)
    (entries : MergedStore) :
    ∀ state t,
    (publishCleanupLoop source urlMap noCancel seen entries state t).2.1
      = entries.filterMap (fun e =>
          if e.1 ∈ seen then none
          else if (aerase e.2 source).isEmpty then some e.1 else none) := by
  induction entries with
  | nil => intro state t; simp [publishCleanupLoop]
  | cons e rest ih =>
    obtain ⟨s, m⟩ := e
    intro state t
    by_cases hseen : s ∈ seen
    · simp [publishCleanupLoop, hseen, ih]
    · by_cases hie : aerase m source = []
      · cases hrm : alookup m source with
        | some rv =>
          simp [publishCleanupLoop, hseen, noCancel, List.isEmpty_iff, hie,
            hrm, ih]
        | none =>
          simp [publishCleanupLoop, hseen, noCancel, List.isEmpty_iff, hie,
            hrm, ih]
      · simp [publishCleanupLoop, hseen, noCancel, List.isEmpty_iff, hie, ih]

theorem publishCleanupLoop_events (source : DiagnosticSource)
    (urlMap : Specifier → Option Specifier) (seen : List Specifier)
    (entries : MergedStore) :
    ∀ state t,
    (publishCleanupLoop source urlMap noCancel seen entries state t).2.2.2.1
      = entries.filterMap (fun e =>
          if e.1 ∈ seen then none
          else if (aerase e.2 source).isEmpty then
            (alookup e.2 source).map (fun rv =>
              PublishEvent.publishDiagnostics
                (normalizeSpecifier urlMap e.1) [] rv.version)
          else none) := by
  induction entries with
  | nil => intro state t; simp [publishCleanupLoop]
  | cons e rest ih =>
    obtain ⟨s, m⟩ := e
    intro state t
    by_cases hseen : s ∈ seen
    · simp [publishCleanupLoop, hseen, ih]
    · by_cases hie : aerase m source = []
      · cases hrm : alookup m source with
        | some rv =>
          simp [publishCleanupLoop, hseen, noCancel, List.isEmpty_iff, hie,
            hrm, ih]
        | none =>
          simp [publishCleanupLoop, hseen, noCancel, List.isEmpty_iff, hie,
            hrm, ih]
      · simp [publishCleanupLoop, hseen, noCancel, List.isEmpty_iff, hie, ih]

theorem map_fst_cleanup_entries (source : DiagnosticSource)
    (seen : List Specifier) (l : MergedStore) :
    (l.map (fun e =>
        if e.1 ∈ seen then e else (e.1, aerase e.2 source))).map Prod.fst
      = l.map Prod.fst := by
  induction l with
  | nil => simp
  | cons e rest ih =>
    obtain ⟨s, m⟩ := e
    by_cases hseen : s ∈ seen <;> simp [hseen, ih]

/-! ## Claim C4: empty specifiers are evicted -/

/-- C4: after a `DiagnosticsPublisher::publish` call that runs to
completion without cancellation, no specifier remains in the merged
store whose slot map holds no source at all — a specifier whose last
source was removed is evicted together with its key. -/
theorem c4_publish_evicts_sourceless_specifiers :
    ∀ (source : DiagnosticSource) (urlMap : Specifier → Option Specifier)
      (records : DiagnosticVec) (store : MergedStore) (state : StateMap)
      (t : Nat),
    keysNodup store →
    ∀ p ∈ (DiagnosticsPublisher.publish source urlMap noCancel records store
        state t).store, p.2 ≠ [] := by
  intro source urlMap records store state t hnd p hp
  simp only [DiagnosticsPublisher.publish, publishRecordLoop_not_cancelled,
    Bool.false_eq_true, if_false, PublishOut.store] at hp
  rw [publishCleanupLoop_entries, publishCleanupLoop_removals] at hp
  obtain ⟨hpmem, hpf⟩ := List.mem_filter.mp hp
  obtain ⟨e0, he0, hge⟩ := List.mem_map.mp hpmem
  obtain ⟨s0, m0⟩ := e0
  by_cases hseen : s0 ∈ records.map (fun record => record.specifier)
  · rw [if_pos hseen] at hge
    obtain ⟨mm, hmm, hmmne⟩ := publishRecordLoop_lookup_mem source urlMap
      records s0 hseen store state t
    have hnd' := publishRecordLoop_keysNodup source urlMap records store
      state t hnd
    have h0 := alookup_eq_some_of_mem hnd' he0
    rw [hmm] at h0
    injection h0 with h0
    rw [← hge]
    simpa [h0] using hmmne
  · rw [if_neg hseen] at hge
    rw [← hge]
    simp only [ne_eq]
    intro hcontra
    rw [← hge] at hpf
    simp only [decide_eq_true_eq] at hpf
    apply hpf
    exact List.mem_filterMap.mpr ⟨(s0, m0), he0, by
      simp [hseen, hcontra]⟩

/-- C4 witness: publishing a lint batch that no longer mentions `"a"`
(whose only source was lint) evicts `"a"`; every surviving entry holds at
least one source. -/
theorem c4_publish_evicts_sourceless_specifiers_witness :
    keysNodup
      ([("a", [(DiagnosticSource.lint, ⟨some 1, []⟩)]),
        ("b", [(DiagnosticSource.lint, ⟨some 1, []⟩),
               (DiagnosticSource.ts, ⟨some 1, []⟩)])] : MergedStore) ∧
    ∀ p ∈ (DiagnosticsPublisher.publish .lint rawUrlMap noCancel
        [⟨"c", ⟨some 2, []⟩⟩]
        [("a", [(DiagnosticSource.lint, ⟨some 1, []⟩)]),
         ("b", [(DiagnosticSource.lint, ⟨some 1, []⟩),
                (DiagnosticSource.ts, ⟨some 1, []⟩)])]
        [] 0).store, p.2 ≠ [] := by
  refine ⟨by decide, ?_⟩
  exact c4_publish_evicts_sourceless_specifiers .lint rawUrlMap
    [⟨"c", ⟨some 2, []⟩⟩]
    [("a", [(DiagnosticSource.lint, ⟨some 1, []⟩)]),
     ("b", [(DiagnosticSource.lint, ⟨some 1, []⟩),
            (DiagnosticSource.ts, ⟨some 1, []⟩)])]
    [] 0 (by decide)

/-! ## Claim C2: clearing publishes for stale specifiers -/

theorem cleanup_events_filter_nil (source : DiagnosticSource)
    (seen : List Specifier) (s : Specifier) (l : MergedStore)
    (h : s ∉ l.map Prod.fst) :
    (l.filterMap (fun e =>
        if e.1 ∈ seen then none
        else if (aerase e.2 source).isEmpty then
          (alookup e.2 source).map (fun rv =>
            PublishEvent.publishDiagnostics
              (normalizeSpecifier rawUrlMap e.1) [] rv.version)
        else none)).filter (fun e => decide (e.uri = s)) = [] := by
  rw [List.filter_eq_nil_iff]
  intro e he
  obtain ⟨a, ha, hfa⟩ := List.mem_filterMap.mp he
  have hkey : e.uri = a.1 := by
    by_cases hseen : a.1 ∈ seen
    · simp [hseen] at hfa
    · by_cases hie : aerase a.2 source = []
      · cases hrm : alookup a.2 source with
        | some rv =>
          simp [hseen, List.isEmpty_iff, hie, hrm] at hfa
          simp [← hfa, PublishEvent.uri, normalizeSpecifier, rawUrlMap]
        | none => simp [hseen, List.isEmpty_iff, hie, hrm] at hfa
      · simp [hseen, List.isEmpty_iff, hie] at hfa
  simp only [decide_eq_true_eq]
  intro hcontra
  apply h
  rw [← hcontra, hkey]
  exact List.mem_map.mpr ⟨a, ha, rfl⟩

theorem cleanup_removals_not_mem (source : DiagnosticSource)
    (seen : List Specifier) (s : Specifier) (l : MergedStore)
    (h : ∀ e ∈ l, e.1 = s → (e.1 ∈ seen ∨ aerase e.2 source ≠ [])) :
    s ∉ l.filterMap (fun e =>
        if e.1 ∈ seen then none
        else if (aerase e.2 source).isEmpty then some e.1 else none) := by
  intro hmem
  obtain ⟨a, ha, hfa⟩ := List.mem_filterMap.mp hmem
  by_cases hseen : a.1 ∈ seen
  · simp [hseen] at hfa
  · by_cases hie : aerase a.2 source = []
    · simp [hseen, List.isEmpty_iff, hie] at hfa
      rcases h a ha hfa with hc | hc
      · exact hseen hc
      · exact hc hie
    · simp [hseen, List.isEmpty_iff, hie] at hfa

/-- C2 counterexample: specifier `"a"` was previously published under
the Ts source and also holds lint diagnostics; a Ts batch that does not
mention `"a"` silently drops its Ts slot and emits no clearing
`publishDiagnostics` for `"a"` at all. -/
theorem c2_clearing_publish_counterexample :
    alookup
        ([("a", [(DiagnosticSource.ts,
            ⟨some 1, [{ range := ⟨⟨0, 0⟩, ⟨0, 0⟩⟩ }]⟩),
          (DiagnosticSource.lint,
            ⟨some 1, [{ range := ⟨⟨1, 1⟩, ⟨1, 1⟩⟩ }]⟩)])] : MergedStore) "a"
      = some [(DiagnosticSource.ts,
            ⟨some 1, [{ range := ⟨⟨0, 0⟩, ⟨0, 0⟩⟩ }]⟩),
          (DiagnosticSource.lint,
            ⟨some 1, [{ range := ⟨⟨1, 1⟩, ⟨1, 1⟩⟩ }]⟩)] ∧
    ("a" : Specifier)
      ∉ ([⟨"b", ⟨none, []⟩⟩] : DiagnosticVec).map (fun r => r.specifier) ∧
    ((DiagnosticsPublisher.publish .ts rawUrlMap noCancel
        [⟨"b", ⟨none, []⟩⟩]
        [("a", [(DiagnosticSource.ts,
            ⟨some 1, [{ range := ⟨⟨0, 0⟩, ⟨0, 0⟩⟩ }]⟩),
          (DiagnosticSource.lint,
            ⟨some 1, [{ range := ⟨⟨1, 1⟩, ⟨1, 1⟩⟩ }]⟩)])]
        [] 0).events.filter (fun e => decide (e.uri = "a"))) = [] := by
  decide

/-- C2 amended: after an uncancelled `publish` of source `S`, a
specifier `s` previously published under `S` but absent from the batch
has its `S` slot removed; when `S` was its only remaining source, the
editor receives exactly one clearing `publishDiagnostics(s, [],
lastVersion)` and `s` is evicted; when other sources still hold
diagnostics for `s`, no message at all is emitted for `s` and its entry
keeps the remaining sources. -/
theorem c2_clearing_publish_amended :
    ∀ (source : DiagnosticSource) (records : DiagnosticVec)
      (store : MergedStore) (state : StateMap) (t : Nat) (s : Specifier)
      (m : DiagnosticsBySource) (rv : VersionedDiagnostics),
    keysNodup store →
    alookup store s = some m →
    alookup m source = some rv →
    s ∉ records.map (fun r => r.specifier) →
    (aerase m source = [] →
      ((DiagnosticsPublisher.publish source rawUrlMap noCancel records store
          state t).events.filter (fun e => decide (e.uri = s)))
        = [.publishDiagnostics s [] rv.version] ∧
      alookup (DiagnosticsPublisher.publish source rawUrlMap noCancel records
          store state t).store s = none) ∧
    (aerase m source ≠ [] →
      ((DiagnosticsPublisher.publish source rawUrlMap noCancel records store
          state t).events.filter (fun e => decide (e.uri = s))) = [] ∧
      alookup (DiagnosticsPublisher.publish source rawUrlMap noCancel records
          store state t).store s = some (aerase m source)) := by
  intro source records store state t s m rv hnd hm hrv hs
  have hent_lookup : alookup
      (publishRecordLoop source rawUrlMap noCancel records store state t).1 s
      = some m := by
    rw [publishRecordLoop_lookup_not_mem source rawUrlMap records s hs]
    exact hm
  have hnd' : keysNodup
      (publishRecordLoop source rawUrlMap noCancel records store state t).1 :=
    publishRecordLoop_keysNodup source rawUrlMap records store state t hnd
  obtain ⟨l1, l2, hsplit, hl1, hl2⟩ := alookup_split hnd' hent_lookup
  constructor
  · intro hae
    constructor
    · simp only [DiagnosticsPublisher.publish,
        publishRecordLoop_not_cancelled, Bool.false_eq_true, if_false,
        PublishOut.events]
      rw [List.filter_append,
        publishRecordLoop_events_filter_raw source records s hs,
        publishCleanupLoop_events, hsplit, List.filterMap_append,
        List.filterMap_cons]
      rw [show (if s ∈ records.map (fun record => record.specifier) then
            (none : Option PublishEvent)
          else if (aerase m source).isEmpty then
            (alookup m source).map (fun rv =>
              PublishEvent.publishDiagnostics
                (normalizeSpecifier rawUrlMap s) [] rv.version)
          else none)
          = some (PublishEvent.publishDiagnostics s [] rv.version) from by
        simp [hs, List.isEmpty_iff, hae, hrv, normalizeSpecifier, rawUrlMap]]
      rw [List.nil_append, List.filter_append,
        cleanup_events_filter_nil source _ s l1 hl1,
        List.filter_cons_of_pos (by simp [PublishEvent.uri]),
        cleanup_events_filter_nil source _ s l2 hl2]
      simp
    · simp only [DiagnosticsPublisher.publish,
        publishRecordLoop_not_cancelled, Bool.false_eq_true, if_false,
        PublishOut.store]
      rw [publishCleanupLoop_entries, publishCleanupLoop_removals]
      apply alookup_filter_not_mem
      rw [hsplit]
      refine List.mem_filterMap.mpr ⟨(s, m), by simp, ?_⟩
      simp [hs, List.isEmpty_iff, hae]
  · intro hae
    have hnotrm : s ∉ (publishCleanupLoop source rawUrlMap noCancel
        (records.map (fun record => record.specifier))
        (publishRecordLoop source rawUrlMap noCancel records store state t).1
        (publishRecordLoop source rawUrlMap noCancel records store state
          t).2.1
        (publishRecordLoop source rawUrlMap noCancel records store state
          t).2.2.2.2.1).2.1 := by
      rw [publishCleanupLoop_removals]
      apply cleanup_removals_not_mem
      intro e he hekey
      rw [hsplit] at he
      rcases List.mem_append.mp he with he | he
      · exact absurd (hekey ▸ List.mem_map.mpr ⟨e, he, rfl⟩) hl1
      · rcases List.mem_cons.mp he with he | he
        · right
          rw [he]
          exact hae
        · exact absurd (hekey ▸ List.mem_map.mpr ⟨e, he, rfl⟩) hl2
    constructor
    · simp only [DiagnosticsPublisher.publish,
        publishRecordLoop_not_cancelled, Bool.false_eq_true, if_false,
        PublishOut.events]
      rw [List.filter_append,
        publishRecordLoop_events_filter_raw source records s hs,
        publishCleanupLoop_events, hsplit, List.filterMap_append,
        List.filterMap_cons]
      rw [show (if s ∈ records.map (fun record => record.specifier) then
            (none : Option PublishEvent)
          else if (aerase m source).isEmpty then
            (alookup m source).map (fun rv =>
              PublishEvent.publishDiagnostics
                (normalizeSpecifier rawUrlMap s) [] rv.version)
          else none) = none from by
        simp [hs, List.isEmpty_iff, hae]]
      rw [List.filter_append,
        cleanup_events_filter_nil source _ s l1 hl1,
        cleanup_events_filter_nil source _ s l2 hl2]
      simp
    · simp only [DiagnosticsPublisher.publish,
        publishRecordLoop_not_cancelled, Bool.false_eq_true, if_false,
        PublishOut.store]
      rw [publishCleanupLoop_entries]
      rw [alookup_filter_mem _ _ _ hnotrm]
      rw [hsplit, List.map_append, List.map_cons]
      rw [alookup_append_not_mem _ (by
        rw [map_fst_cleanup_entries]
        exact hl1)]
      rw [show ((if (s, m).1 ∈ records.map (fun record => record.specifier)
          then (s, m) else ((s, m).1, aerase (s, m).2 source)))
          = (s, aerase m source) from if_neg hs]
      simp [alookup]

/-- C2 witness: when Ts was `"a"`'s only source, an uncancelled Ts batch
without `"a"` emits exactly one clearing publish and evicts `"a"`; when a
lint slot remains, nothing is emitted for `"a"` and the lint slot
survives. -/
theorem c2_clearing_publish_amended_witness :
    (((DiagnosticsPublisher.publish .ts rawUrlMap noCancel
        [⟨"b", ⟨none, []⟩⟩] [("a", [(DiagnosticSource.ts, ⟨some 1, []⟩)])]
        [] 0).events.filter (fun e => decide (e.uri = "a")))
      = [.publishDiagnostics "a" [] (some 1)] ∧
      alookup (DiagnosticsPublisher.publish .ts rawUrlMap noCancel
        [⟨"b", ⟨none, []⟩⟩] [("a", [(DiagnosticSource.ts, ⟨some 1, []⟩)])]
        [] 0).store "a" = none) ∧
    (((DiagnosticsPublisher.publish .ts rawUrlMap noCancel
        [⟨"b", ⟨none, []⟩⟩]
        [("a", [(DiagnosticSource.ts, ⟨some 1, []⟩),
                (DiagnosticSource.lint, ⟨some 2, []⟩)])]
        [] 0).events.filter (fun e => decide (e.uri = "a"))) = [] ∧
      alookup (DiagnosticsPublisher.publish .ts rawUrlMap noCancel
        [⟨"b", ⟨none, []⟩⟩]
        [("a", [(DiagnosticSource.ts, ⟨some 1, []⟩),
                (DiagnosticSource.lint, ⟨some 2, []⟩)])]
        [] 0).store "a" = some [(DiagnosticSource.lint, ⟨some 2, []⟩)]) := by
  refine ⟨(c2_clearing_publish_amended .ts [⟨"b", ⟨none, []⟩⟩]
      [("a", [(DiagnosticSource.ts, ⟨some 1, []⟩)])] [] 0 "a"
      [(DiagnosticSource.ts, ⟨some 1, []⟩)] ⟨some 1, []⟩
      (by decide) (by decide) (by decide) (by decide)).1 (by decide),
    ?_⟩
  have h2 := (c2_clearing_publish_amended .ts [⟨"b", ⟨none, []⟩⟩]
      [("a", [(DiagnosticSource.ts, ⟨some 1, []⟩),
              (DiagnosticSource.lint, ⟨some 2, []⟩)])] [] 0 "a"
      [(DiagnosticSource.ts, ⟨some 1, []⟩),
       (DiagnosticSource.lint, ⟨some 2, []⟩)] ⟨some 1, []⟩
      (by decide) (by decide) (by decide) (by decide)).2 (by decide)
  simpa [aerase] using h2

/-! ## Claim C3: the published list is the cross-source union -/

/-- C3: for every record of an uncancelled `publish` batch, the
diagnostics list sent to the editor for that record's specifier is the
union (concatenation, with no version filtering) of the per-source lists
held in the merged store right after that record's slot write, and the
very same list is what `DiagnosticsState.update` receives at that
step. -/
theorem c3_published_union :
    ∀ (source : DiagnosticSource) (urlMap : Specifier → Option Specifier)
      (records : DiagnosticVec) (store : MergedStore) (state : StateMap)
      (t : Nat) (i : Nat) (h : i < records.length),
    (DiagnosticsPublisher.publish source urlMap noCancel records store state
        t).events[i]?
      = some (PublishEvent.publishDiagnostics
          (normalizeSpecifier urlMap (records.get ⟨i, h⟩).specifier)
          (((alookup (publishRecordLoop source urlMap noCancel
              (records.take (i + 1)) store state t).1
              (records.get ⟨i, h⟩).specifier).getD []).flatMap
            (fun p => p.2.diagnostics))
          (records.get ⟨i, h⟩).versioned.version) ∧
    (publishRecordLoop source urlMap noCancel (records.take (i + 1)) store
        state t).2.1
      = DiagnosticsState.update
          (publishRecordLoop source urlMap noCancel (records.take i) store
            state t).2.1
          (records.get ⟨i, h⟩).specifier
          (records.get ⟨i, h⟩).versioned.version
          (((alookup (publishRecordLoop source urlMap noCancel
              (records.take (i + 1)) store state t).1
              (records.get ⟨i, h⟩).specifier).getD []).flatMap
            (fun p => p.2.diagnostics)) := by
  intro source urlMap records store state t i h
  have htake : records.take (i + 1)
      = records.take i ++ [records.get ⟨i, h⟩] := by
    rw [List.take_succ]
    congr
    rw [List.getElem?_eq_getElem h]
    simp
  constructor
  · simp only [DiagnosticsPublisher.publish, publishRecordLoop_not_cancelled,
      Bool.false_eq_true, if_false, PublishOut.events]
    rw [List.getElem?_append_left
      (by rw [publishRecordLoop_events_length]; exact h)]
    exact publishRecordLoop_event_get source urlMap records store state t i h
  · rw [htake, publishRecordLoop_state_append,
      publishRecordLoop_store_append]
    simp only [publishRecordLoop, noCancel, Bool.false_eq_true, if_false]
    rw [alookup_aset_self]
    simp

/-- C3 witness: publishing one Ts record for `"a"` while the store still
holds a lint slot for `"a"` publishes the concatenation of the lint and
Ts lists (no version filtering: lint is pinned to version 1, the Ts
record to version 2), and hands the same list to the state update. -/
theorem c3_published_union_witness :
    (DiagnosticsPublisher.publish .ts rawUrlMap noCancel
        [⟨"a", ⟨some 2, [{ range := ⟨⟨2, 2⟩, ⟨2, 2⟩⟩ }]⟩⟩]
        [("a", [(DiagnosticSource.lint,
          ⟨some 1, [{ range := ⟨⟨1, 1⟩, ⟨1, 1⟩⟩ }]⟩)])]
        [] 0).events[0]?
      = some (.publishDiagnostics "a"
          [{ range := ⟨⟨1, 1⟩, ⟨1, 1⟩⟩ }, { range := ⟨⟨2, 2⟩, ⟨2, 2⟩⟩ }]
          (some 2)) ∧
    (publishRecordLoop .ts rawUrlMap noCancel
        ([⟨"a", ⟨some 2, [{ range := ⟨⟨2, 2⟩, ⟨2, 2⟩⟩ }]⟩⟩].take 1)
        [("a", [(DiagnosticSource.lint,
          ⟨some 1, [{ range := ⟨⟨1, 1⟩, ⟨1, 1⟩⟩ }]⟩)])]
        [] 0).2.1
      = DiagnosticsState.update
          (publishRecordLoop .ts rawUrlMap noCancel
            ([⟨"a", ⟨some 2, [{ range := ⟨⟨2, 2⟩, ⟨2, 2⟩⟩ }]⟩⟩].take 0)
            [("a", [(DiagnosticSource.lint,
              ⟨some 1, [{ range := ⟨⟨1, 1⟩, ⟨1, 1⟩⟩ }]⟩)])]
            [] 0).2.1
          "a" (some 2)
          [{ range := ⟨⟨1, 1⟩, ⟨1, 1⟩⟩ }, { range := ⟨⟨2, 2⟩, ⟨2, 2⟩⟩ }] := by
  have h := c3_published_union .ts rawUrlMap
    [⟨"a", ⟨some 2, [{ range := ⟨⟨2, 2⟩, ⟨2, 2⟩⟩ }]⟩⟩]
    [("a", [(DiagnosticSource.lint,
      ⟨some 1, [{ range := ⟨⟨1, 1⟩, ⟨1, 1⟩⟩ }]⟩)])]
    [] 0 0 (by decide)
  constructor
  · rw [h.1]
    decide
  · rw [h.2]
    decide

end Deno
